import Mathlib

/-!
Verification development for the MenuMaker application (`menu-maker.py`).

The Python source is shallowly embedded: the tree of categories and items,
the store operations, the layout projection and the cursor handling become
pure Lean functions over an explicit application-state record.  Machine
integers are modelled as `Int` (Python integers are unbounded), fallible
steps return `Option`, and every definition is executable.

String primitives: Python's `str.strip`, `str.lower` and `int(s, 16)` /
`int(s)` are modelled over `List Char`.  The model covers the ASCII
fragment of those functions (the configuration data of this program is
ASCII); `int` parsing follows CPython's rules: optional surrounding
whitespace, an optional sign, an optional `0x`/`0X` prefix when the base
is 16, and digit runs in which single underscores may separate digits.
-/

/-- Python whitespace test (ASCII fragment of `str.strip`'s default set). -/
def isPySpace (c : Char) : Bool :=
  c = ' ' || c = '\t' || c = '\n' || c = '\r' || c = '\x0b' || c = '\x0c'

/-- Python `str.strip()` on a character list: drop whitespace at both ends. -/
def pyStripL (l : List Char) : List Char :=
  ((l.dropWhile isPySpace).reverse.dropWhile isPySpace).reverse

/-- ASCII lower-casing of one character, as CPython's `str.lower` acts on ASCII. -/
def lowerChar (c : Char) : Char :=
  if 65 ≤ c.toNat ∧ c.toNat ≤ 90 then Char.ofNat (c.toNat + 32) else c

/-- Python `str.lower()` on a character list (ASCII fragment). -/
def pyLowerL (l : List Char) : List Char := l.map lowerChar

/-- Hexadecimal digit test (the digits accepted by CPython for base 16). -/
def isHexDig (c : Char) : Bool :=
  ('0' ≤ c ∧ c ≤ '9') || ('a' ≤ c ∧ c ≤ 'f') || ('A' ≤ c ∧ c ≤ 'F')

/-- Digit run of a CPython integer literal: digits possibly separated by
single underscores.  `prev` records whether the previous character was a
digit (or the base marker), which is what licenses a following underscore. -/
def pyDigRun (dig : Char → Bool) : Bool → List Char → Bool
  | prev, [] => prev
  | prev, c :: rest =>
    if c = '_' then prev && pyDigRun dig false rest
    else dig c && pyDigRun dig true rest

/-- Strip an optional leading `+`/`-` sign. -/
def dropSign : List Char → List Char
  | '+' :: rest => rest
  | '-' :: rest => rest
  | l => l

/-- Does the list start with a `0x` / `0X` base-16 marker? -/
def hasHexMarker : List Char → Bool
  | '0' :: c :: _ => c = 'x' || c = 'X'
  | _ => false

/-- Success predicate of CPython's `int(s, 16)`: surrounding whitespace,
an optional sign, an optional `0x` marker, then a nonempty underscore-
separated hex digit run. -/
def pyIntHex16Ok (l : List Char) : Bool :=
  let t := dropSign (pyStripL l)
  if hasHexMarker t then
    let body := t.drop 2
    !body.isEmpty && pyDigRun isHexDig true body
  else
    pyDigRun isHexDig false t

/-- Core of `normalize_hex_color` (menu-maker.py lines 31-46) on character
lists: strip and lower-case the input (an empty input is the falsy-value
guard), prepend `#` when absent, require total length 7, and require the
six characters after `#` to satisfy `int(color[1:], 16)`. -/
def normalize_hex_data (l : List Char) : Option (List Char) :=
  if l = [] then none
  else
    let color := pyLowerL (pyStripL l)
    if color = [] then none
    else
      let color2 := if color.head? = some '#' then color else '#' :: color
      if color2.length ≠ 7 then none
      else if pyIntHex16Ok (color2.drop 1) then some color2
      else none

/-- Embedding of `normalize_hex_color`: the list-level pipeline on the
string's characters. -/
def normalize_hex_color (value : String) : Option String :=
  (normalize_hex_data value.data).map String.mk

example : normalize_hex_color "1a2B3C" = some "#1a2b3c" := by decide
example : normalize_hex_color "12345" = none := by decide
example : normalize_hex_color "#zzzzzz" = none := by decide
example : normalize_hex_color "+12345" = some "#+12345" := by decide
example : normalize_hex_color " #1A2b3c " = some "#1a2b3c" := by decide
example : normalize_hex_color "#0x1234" = some "#0x1234" := by decide

/-!
Data model.  A menu item is the record stored in a category's `items`
list; its lookup identity is the pair `(label, cmd)`.  `pause` defaults to
`False` in the source wherever the key is absent, so the embedding keeps a
total boolean field.
-/

/-- One launchable menu entry (the item dicts of `menu-maker.py`). -/
structure Item where
  label : String
  cmd : String
  info : String
  category : String
  pause : Bool
deriving DecidableEq, Repr

/-- A validated color pair as produced by `sanitize_color_pair`. -/
structure ColorPair where
  background : String
  text : String
deriving DecidableEq, Repr

/-- A raw color-pair dict whose fields may be missing, as fed to
`sanitize_color_pair`. -/
structure RawColorPair where
  background : Option String
  text : Option String
deriving DecidableEq, Repr

/-- A named category of the menu tree.  `column` is the Python integer
stored under the `column` key (a missing key reads as `1`, which the
embedding represents by storing `1`). -/
structure Category where
  expanded : Bool
  column : Int
  colors : Option ColorPair
  items : List Item
deriving DecidableEq, Repr

/-- A named palette color pair (`custom_colors` entries and
`DEFAULT_COLOR_PAIRS`). -/
structure PaletteEntry where
  name : String
  background : String
  text : String
deriving DecidableEq, Repr

/-- Embedding of the module constant `DEFAULT_COLOR_PAIRS`
(menu-maker.py lines 22-28). -/
def DEFAULT_COLOR_PAIRS : List PaletteEntry :=
  [ { name := "Teal Glow", background := "#034e68", text := "#caf0f8" },
    { name := "Amber Pop", background := "#6f1d1b", text := "#ffe5d9" },
    { name := "Purple Mist", background := "#240046", text := "#f8f9fa" },
    { name := "Forest Tones", background := "#283618", text := "#fefae0" },
    { name := "Slate Shine", background := "#2b2d42", text := "#edf2f4" } ]

/-- Embedding of `normalize_hex_color` applied to `dict.get` results, which
may be `None` (the `not value` guard of the source). -/
def normalize_hex_opt (value : Option String) : Option String :=
  value.bind normalize_hex_color

/-- Embedding of `sanitize_color_pair` (menu-maker.py lines 49-57): both
fields must normalize for the pair to be kept. -/
def sanitize_color_pair (color_pair : Option RawColorPair) : Option ColorPair :=
  match color_pair with
  | none => none
  | some cp =>
    match normalize_hex_opt cp.background, normalize_hex_opt cp.text with
    | some b, some t => some { background := b, text := t }
    | _, _ => none

/-!
Palette construction, from `EditCategoryScreen._build_palette_entries`
(menu-maker.py lines 211-238).  The Python loop appends defaults whose
lower-cased `(background, text)` pair is new, and breaks out of the loop
as soon as the palette holds at least four entries; a trailing while-loop
pads with numbered filler entries when fewer than four remain.
-/

/-- Lower-cased `(background, text)` pair of a palette entry. -/
def entryPair (e : PaletteEntry) : String × String :=
  (String.mk (pyLowerL e.background.data), String.mk (pyLowerL e.text.data))

/-- The `seen_pairs` set seeded from the custom colors: pairs of entries
whose background and text are both non-empty (Python truthiness). -/
def seedPairs (custom : List PaletteEntry) : List (String × String) :=
  (custom.filter (fun e => e.background ≠ "" && e.text ≠ "")).map entryPair

/-- The filler entry appended by the while-loop, named after the current
palette length. -/
def fillerEntry (n : Nat) : PaletteEntry :=
  { name := "Color " ++ toString n, background := "#034e68", text := "#caf0f8" }

/-- The `for default in DEFAULT_COLOR_PAIRS` loop: skip blank entries,
append a default whose pair is unseen, and break once the palette has at
least four entries. -/
def addDefaults (palette : List PaletteEntry) (seen : List (String × String)) :
    List PaletteEntry → List PaletteEntry
  | [] => palette
  | d :: rest =>
    if d.background = "" || d.text = "" then addDefaults palette seen rest
    else
      let pr := entryPair d
      let palette' := if pr ∈ seen then palette else palette ++ [d]
      let seen' := if pr ∈ seen then seen else pr :: seen
      if 4 ≤ palette'.length then palette' else addDefaults palette' seen' rest

/-- The `while len(palette) < 4` padding loop, run with enough fuel (each
iteration grows the palette by one, so four rounds always suffice). -/
def addFillersAux : Nat → List PaletteEntry → List PaletteEntry
  | 0, p => p
  | n + 1, p => if p.length < 4 then addFillersAux n (p ++ [fillerEntry (p.length + 1)]) else p

/-- Pad the palette to at least four entries. -/
def addFillers (p : List PaletteEntry) : List PaletteEntry := addFillersAux 4 p

/-- Embedding of `EditCategoryScreen._build_palette_entries`
(menu-maker.py lines 211-238). -/
def build_palette_entries (available_colors : List PaletteEntry) : List PaletteEntry :=
  addFillers (addDefaults available_colors (seedPairs available_colors) DEFAULT_COLOR_PAIRS)

example : (build_palette_entries []).length = 4 := by decide
example : build_palette_entries [] = DEFAULT_COLOR_PAIRS.take 4 := by decide

/-!
Application state.  The `MenuMaker` app object carries the menu tree (a
Python dict, embedded as an insertion-ordered association list with unique
keys), the column count, the custom palette, the flattened display list
and the cursor index.  Durable storage is embedded as the last record
written by `save_menu_data`, together with a counter of how many writes
occurred (the write-through persistence the spec describes).
-/

/-- One entry of the flattened display list (`self.display_items`): a
category header or a menu item. -/
inductive FlatEntry where
  | header (name : String)
  | item (data : Item)
deriving DecidableEq, Repr

/-- The JSON record written by `save_menu_data` (menu-maker.py lines
997-1014). -/
structure SavedData where
  categories : List (String × Category)
  title : String
  columns : Int
  custom_colors : List PaletteEntry
deriving DecidableEq, Repr

/-- The mutable state of the `MenuMaker` app that the claims concern.
`saves` counts calls to `save_menu_data`; `storage` is its last payload.
The widget tree itself is not modelled, only the `display_items`
projection the cursor indexes into. -/
structure AppState where
  menu_data : List (String × Category)
  column_count : Int
  custom_colors : List PaletteEntry
  app_title : String
  display_items : List FlatEntry
  current_index : Int
  storage : Option SavedData
  saves : Nat
deriving DecidableEq, Repr

/-- Embedding of `SettingsScreen.MAX_COLUMNS` (menu-maker.py line 521),
copied into `self.max_columns`. -/
def MAX_COLUMNS : Int := 6

/-- First category stored under `name` (Python `dict` lookup; keys are
unique, so the first match is the entry). -/
def lookupCat (tree : List (String × Category)) (name : String) : Option Category :=
  (tree.find? (fun e => e.1 = name)).map (·.2)

/-- Python `name in tree` on the category dict. -/
def containsKey (tree : List (String × Category)) (name : String) : Bool :=
  tree.any (fun e => e.1 = name)

/-- Replace the value stored under an existing key, keeping its position. -/
def replaceCat (tree : List (String × Category)) (name : String) (cat : Category) :
    List (String × Category) :=
  tree.map (fun e => if e.1 = name then (e.1, cat) else e)

/-- Embedding of `save_menu_data` (menu-maker.py lines 997-1014): write the
current tree, settings and custom colors through to storage. -/
def save_menu_data (s : AppState) : AppState :=
  { s with
    storage := some { categories := s.menu_data, title := s.app_title,
                      columns := s.column_count, custom_colors := s.custom_colors },
    saves := s.saves + 1 }

/-- Embedding of `cleanup_empty_categories` (menu-maker.py lines
1129-1139): drop categories with an empty item list and persist when that
changed anything. -/
def cleanup_empty_categories (s : AppState) : AppState :=
  let updated := s.menu_data.filter (fun e => !e.2.items.isEmpty)
  if updated = s.menu_data then s
  else save_menu_data { s with menu_data := updated }

/-- Embedding of `clamp_column_count` (menu-maker.py lines 1141-1147).
The `int(value)` conversion is the identity on the `Int` model; a
non-numeric value (which falls back to `1`) is outside the model. -/
def clamp_column_count (value : Int) : Int :=
  max 1 (min MAX_COLUMNS value)

/-- Embedding of `normalize_column_value` (menu-maker.py lines 1149-1155):
clamp a category column into `[1, column_count]`. -/
def normalize_column_value (column_count : Int) (value : Int) : Int :=
  max 1 (min column_count value)

/-- Embedding of `ensure_category_columns` (menu-maker.py lines
1157-1166): renormalize every category column, reporting whether any value
changed. -/
def ensure_category_columns (column_count : Int) :
    List (String × Category) → List (String × Category) × Bool
  | [] => ([], false)
  | (n, c) :: rest =>
    let normalized := normalize_column_value column_count c.column
    let (rest', changed) := ensure_category_columns column_count rest
    ((n, { c with column := normalized }) :: rest', (c.column ≠ normalized) || changed)

/-- The flat entries contributed by one column: every category assigned to
that column, in tree insertion order, as a header followed (when expanded)
by its items.  Mirrors the per-column walk of `update_menu_display`
(menu-maker.py lines 1077-1108). -/
def column_entries (tree : List (String × Category)) (col : Int) : List FlatEntry :=
  (tree.filter (fun e => e.2.column = col)).flatMap
    (fun e => FlatEntry.header e.1 ::
      (if e.2.expanded then e.2.items.map FlatEntry.item else []))

/-- The flattened display list: concatenation of the columns `1..count` in
order (menu-maker.py lines 1077-1108).  `update_menu_display` groups by
the normalized column; the tree is normalized first, so grouping reads the
stored column directly. -/
def build_display_items (column_count : Int) (tree : List (String × Category)) :
    List FlatEntry :=
  (List.range column_count.toNat).flatMap (fun i => column_entries tree ((i : Int) + 1))

/-- The index clamp of `update_highlighting` (menu-maker.py lines
1213-1215): pull the index into `[0, len - 1]`. -/
def clamp_index (idx len : Int) : Int :=
  max 0 (min idx (len - 1))

/-- Embedding of `update_highlighting`'s state effect (menu-maker.py lines
1208-1215): with a nonempty display list, clamp the cursor index; with an
empty one, return untouched.  The widget styling it also performs is not
part of the state model. -/
def update_highlighting (s : AppState) : AppState :=
  if s.display_items.isEmpty then s
  else { s with current_index := clamp_index s.current_index s.display_items.length }

/-- Embedding of `update_menu_display` (menu-maker.py lines 1042-1127):
purge empty categories, renormalize category columns (persisting when that
changed anything), rebuild the flattened display list, and reclamp the
cursor via `update_highlighting`. -/
def update_menu_display (s : AppState) : AppState :=
  let s := cleanup_empty_categories s
  let (tree', columns_changed) := ensure_category_columns s.column_count s.menu_data
  let s := { s with menu_data := tree' }
  let s := if columns_changed then save_menu_data s else s
  let s := { s with display_items := build_display_items s.column_count tree' }
  update_highlighting s

/-- Embedding of `set_column_count` (menu-maker.py lines 1168-1179).  The
boolean parameters mirror the Python keyword arguments; the source
defaults are `apply_layout := true`, `persist := false`,
`save_on_change := true` (the layout branch assumes the container is
mounted). -/
def set_column_count (s : AppState) (count : Int)
    (apply_layout persist save_on_change : Bool) : AppState :=
  let normalized := clamp_column_count count
  let changed := normalized ≠ s.column_count
  let s := { s with column_count := normalized }
  let (tree', columns_changed) := ensure_category_columns normalized s.menu_data
  let s := { s with menu_data := tree' }
  let s := if persist || (save_on_change && (changed || columns_changed))
           then save_menu_data s else s
  if apply_layout then update_menu_display s else s

/-!
Navigation cursor and the item/category mutations.
-/

/-- Embedding of `action_cursor_down` (menu-maker.py lines 1366-1386):
no-op on an empty display list, else advance the index by one with modulo
wraparound.  (The source skips the assignment when the new index equals
the old one, which yields the same state.) -/
def action_cursor_down (s : AppState) : AppState :=
  if s.display_items.isEmpty then s
  else { s with current_index := (s.current_index + 1) % (s.display_items.length : Int) }

/-- Embedding of `restore_position_to_category` (menu-maker.py lines
1461-1466): move the cursor to the first header with the given name, if
any. -/
def restore_position_to_category (s : AppState) (category_name : String) : AppState :=
  match s.display_items.findIdx? (fun fe => fe = FlatEntry.header category_name) with
  | some i => { s with current_index := (i : Int) }
  | none => s

/-- Embedding of `navigate_to_item` (menu-maker.py lines 1468-1480): move
the cursor to the first display item matching the target's
`(label, cmd)`, if any. -/
def navigate_to_item (s : AppState) (target : Item) : AppState :=
  match s.display_items.findIdx? (fun fe =>
      match fe with
      | FlatEntry.item d => d.label = target.label ∧ d.cmd = target.cmd
      | FlatEntry.header _ => false) with
  | some i => { s with current_index := (i : Int) }
  | none => s

/-- Embedding of `add_new_item` (menu-maker.py lines 1554-1571): create the
item's category when absent (expanded, column `normalize_column_value 1`),
append the item, persist and rebuild the display. -/
def add_new_item (s : AppState) (item_data : Item) : AppState :=
  let category := item_data.category
  let tree :=
    if containsKey s.menu_data category then s.menu_data
    else s.menu_data ++
      [(category, { expanded := true,
                    column := normalize_column_value s.column_count 1,
                    colors := none, items := [] })]
  let tree := tree.map (fun e =>
    if e.1 = category then (e.1, { e.2 with items := e.2.items ++ [item_data] }) else e)
  let s := { s with menu_data := tree }
  let s := save_menu_data s
  update_menu_display s

/-- Pop the first item of a list matching `(label, cmd)`; `none` when no
item matches (the inner loop of `update_item`). -/
def remove_item_once (label cmd : String) : List Item → Option (List Item)
  | [] => none
  | it :: rest =>
    if it.label = label ∧ it.cmd = cmd then some rest
    else (remove_item_once label cmd rest).map (it :: ·)

/-- The search loop of `update_item` (menu-maker.py lines 1583-1595): scan
the categories in order, pop the first `(label, cmd)` match found anywhere,
and report the updated tree; `none` when no category holds a match. -/
def remove_first_match (label cmd : String) :
    List (String × Category) → Option (List (String × Category))
  | [] => none
  | (n, c) :: rest =>
    match remove_item_once label cmd c.items with
    | some items' => some ((n, { c with items := items' }) :: rest)
    | none => (remove_first_match label cmd rest).map ((n, c) :: ·)

/-- Embedding of `update_item` (menu-maker.py lines 1573-1625): pop the
first `(label, cmd)` match of `old_item` anywhere in the tree (silent
no-op when absent), create `new_item`'s category when missing, append
`new_item` there, sweep all emptied categories, persist, rebuild the
display and re-anchor the cursor to `new_item`. -/
def update_item (s : AppState) (old_item new_item : Item) : AppState :=
  match remove_first_match old_item.label old_item.cmd s.menu_data with
  | none => s
  | some tree =>
    let new_category := new_item.category
    let tree :=
      if containsKey tree new_category then tree
      else tree ++
        [(new_category, { expanded := true,
                          column := normalize_column_value s.column_count 1,
                          colors := none, items := [] })]
    let tree := tree.map (fun e =>
      if e.1 = new_category then (e.1, { e.2 with items := e.2.items ++ [new_item] }) else e)
    let tree := tree.filter (fun e => !e.2.items.isEmpty)
    let s := { s with menu_data := tree }
    let s := save_menu_data s
    let s := update_menu_display s
    navigate_to_item s new_item

/-- Embedding of `update_category_details` (menu-maker.py lines
1627-1661): silent no-op when `old_name` is absent; otherwise clamp the
column, replace or clear the color pair, and — unless the new name is
blank or collides with another existing category — rewrite every item's
`category` field and re-key the category (the dict re-keying appends the
new key at the end of the insertion order). -/
def update_category_details (s : AppState) (old_name new_name : String)
    (colors : Option RawColorPair) (column : Option Int) : AppState :=
  match lookupCat s.menu_data old_name with
  | none => s
  | some cat =>
    let sanitized := sanitize_color_pair colors
    let column_value := normalize_column_value s.column_count (column.getD cat.column)
    let cat := { cat with column := column_value, colors := sanitized }
    let target0 := if new_name = "" then old_name else new_name
    let target := if target0 ≠ old_name ∧ containsKey s.menu_data target0
                  then old_name else target0
    let tree :=
      if target ≠ old_name then
        let cat := { cat with items := cat.items.map (fun it => { it with category := target }) }
        (s.menu_data.filter (fun e => e.1 ≠ old_name)) ++ [(target, cat)]
      else replaceCat s.menu_data old_name cat
    let s := { s with menu_data := tree }
    let s := save_menu_data s
    let s := update_menu_display s
    let s := restore_position_to_category s target
    update_highlighting s

/-- The mutation body of `action_delete_item` (menu-maker.py lines
1674-1691), once the cursor entry, its category and its membership have
been established: remove the first structurally-equal item, delete the
category when emptied, persist, rebuild the display, and pull an
out-of-range cursor back to `max 0 (new length - 2)`. -/
def delete_and_adjust (s : AppState) (item_data : Item) (cat : Category) : AppState :=
  let items' := cat.items.erase item_data
  let tree :=
    if items'.isEmpty then s.menu_data.filter (fun e => e.1 ≠ item_data.category)
    else replaceCat s.menu_data item_data.category { cat with items := items' }
  let s1 := update_menu_display (save_menu_data { s with menu_data := tree })
  if (s1.display_items.length : Int) - 1 ≤ s1.current_index then
    { s1 with current_index := max 0 ((s1.display_items.length : Int) - 2) }
  else s1

/-- Embedding of `action_delete_item` (menu-maker.py lines 1663-1691):
when the cursor rests on an item, remove the first structurally-equal item
from the item's recorded category (silent no-op when the category or the
item is missing) via `delete_and_adjust`. -/
def action_delete_item (s : AppState) : AppState :=
  if s.display_items.isEmpty || (s.display_items.length : Int) ≤ s.current_index then s
  else
    match s.display_items.get? s.current_index.toNat with
    | some (FlatEntry.item item_data) =>
      match lookupCat s.menu_data item_data.category with
      | none => s
      | some cat =>
        if item_data ∈ cat.items then delete_and_adjust s item_data cat
        else s
    | _ => s

/-!
Startup: the default tree and the load path.
-/

/-- The default tree built by `create_default_menu` (menu-maker.py lines
981-995). -/
def defaultTree : List (String × Category) :=
  [("System Tools",
    { expanded := true, column := 1, colors := none,
      items := [{ label := "System Monitor", cmd := "htop",
                  info := "Interactive process viewer",
                  category := "System Tools", pause := false }] })]

/-- Embedding of `create_default_menu` (menu-maker.py lines 981-995):
reset the column count to one, install the default tree and the built-in
palette, and persist immediately. -/
def create_default_menu (s : AppState) : AppState :=
  save_menu_data
    { s with column_count := 1, menu_data := defaultTree,
             custom_colors := DEFAULT_COLOR_PAIRS }

/-- A raw `custom_colors` entry as parsed from storage; any field may be
missing. -/
structure RawColorEntry where
  name : Option String
  background : Option String
  text : Option String
deriving DecidableEq, Repr

/-- Raw `app_settings` record from storage (the legacy `theme` key, which
`load_menu_data` merely deletes again, is not modelled). -/
structure RawSettings where
  title : Option String
  columns : Option Int
deriving DecidableEq, Repr

/-- The shape of a structurally well-formed storage file.  Content whose
shape deviates from this (wrong JSON types and the like) raises inside the
`try` block of `load_menu_data` and is covered by `LoadInput.corrupt`. -/
structure RawData where
  categories : List (String × Category)
  custom_colors : List RawColorEntry
  app_settings : Option RawSettings
deriving DecidableEq, Repr

/-- Outcome of reading the storage file: missing, unreadable/ill-shaped
(any exception inside the `try`), or parsed. -/
inductive LoadInput where
  | missing
  | corrupt
  | parsed (d : RawData)
deriving DecidableEq, Repr

/-- The `custom_colors` sanitising loop of `load_menu_data` (menu-maker.py
lines 902-910): keep entries whose pair sanitizes, naming unnamed (or
blank-named) ones `Color i` by their 1-based position in the stored
list. -/
def sanitize_loaded_colors (idx : Nat) : List RawColorEntry → List PaletteEntry
  | [] => []
  | entry :: rest =>
    match sanitize_color_pair (some { background := entry.background, text := entry.text }) with
    | some pair =>
      { name := if entry.name.getD "" = "" then "Color " ++ toString idx else entry.name.getD "",
        background := pair.background, text := pair.text }
        :: sanitize_loaded_colors (idx + 1) rest
    | none => sanitize_loaded_colors (idx + 1) rest

/-- The `if self.ensure_category_columns(): self.save_menu_data()` epilogue
of the `try` block (menu-maker.py lines 928-929). -/
def load_epilogue (s : AppState) : AppState :=
  let (tree', changed) := ensure_category_columns s.column_count s.menu_data
  let s := { s with menu_data := tree' }
  if changed then save_menu_data s else s

/-- Embedding of `load_menu_data` (menu-maker.py lines 888-931).  A missing
file builds and persists the default menu and still runs the epilogue; any
exception (corrupt or ill-shaped content) falls to the `except` handler,
which builds and persists the default menu; parsed content installs the
tree, the sanitized custom colors (only when at least one survived) and
the settings, then renormalizes columns, persisting when that changed
anything. -/
def load_menu_data (inp : LoadInput) (s : AppState) : AppState :=
  match inp with
  | LoadInput.missing => load_epilogue (create_default_menu s)
  | LoadInput.corrupt => create_default_menu s
  | LoadInput.parsed d =>
    let s := { s with menu_data := d.categories }
    let loaded := sanitize_loaded_colors 1 d.custom_colors
    let s := if loaded ≠ [] then { s with custom_colors := loaded } else s
    let s :=
      match d.app_settings with
      | none => s
      | some st =>
        let s := match st.title with
                 | some t => { s with app_title := t }
                 | none => s
        set_column_count s (st.columns.getD 1) false false false
    load_epilogue s

/-!
The category edit dialog's save validation
(`EditCategoryScreen.action_save`, menu-maker.py lines 323-368).
-/

/-- Python `str.strip()` on strings. -/
def pyStripS (s : String) : String := String.mk (pyStripL s.data)

/-- Decimal digit test. -/
def isDecDig (c : Char) : Bool := '0' ≤ c && c ≤ '9'

/-- Value of an underscore-separated decimal digit run. -/
def decValAux (l : List Char) : Nat :=
  l.foldl (fun acc c => if c = '_' then acc else acc * 10 + (c.toNat - 48)) 0

/-- CPython's `int(s)` (base 10): optional surrounding whitespace, optional
sign, then a nonempty underscore-separated decimal digit run; `none` on
`ValueError`. -/
def pyIntDec (s : String) : Option Int :=
  let t0 := pyStripL s.data
  let neg := t0.head? = some '-'
  let t := dropSign t0
  if pyDigRun isDecDig false t then
    some (if neg then -(decValAux t : Int) else (decValAux t : Int))
  else none

/-- The input fields and context available to
`EditCategoryScreen.action_save`. -/
structure CategorySaveInput where
  category_input : String
  background_input : String
  text_input : String
  column_input : String
  old_category_name : String
  existing_categories : List String
  category_column : Int
  max_columns : Int
deriving DecidableEq, Repr

/-- The record a successful `action_save` dismisses the dialog with (its
`custom_colors` echo is not relevant to the claims). -/
structure CategorySavePayload where
  old_name : String
  new_name : String
  colors : Option ColorPair
  column : Int
deriving DecidableEq, Repr

/-- Embedding of `EditCategoryScreen.action_save` (menu-maker.py lines
323-368): reject a blank name, an incomplete color pair, or a name that
collides with a different existing category; otherwise clamp the column
(falling back to the current one when the input does not parse) and return
the save payload. -/
def edit_category_action_save (i : CategorySaveInput) : Except String CategorySavePayload :=
  let new_name := pyStripS i.category_input
  if new_name = "" then Except.error "Category name is required."
  else
    let nb := normalize_hex_color i.background_input
    let nt := normalize_hex_color i.text_input
    if (nb.isSome && !nt.isSome) || (nt.isSome && !nb.isSome) then
      Except.error "Provide both background and text colors or leave both blank."
    else if new_name ≠ i.old_category_name ∧
        new_name ∈ i.existing_categories.filter (fun n => n ≠ i.old_category_name) then
      Except.error "Another category already uses that name."
    else
      let colors :=
        match nb, nt with
        | some b, some t => some ({ background := b, text := t } : ColorPair)
        | _, _ => none
      let column_value := (pyIntDec (pyStripS i.column_input)).getD i.category_column
      Except.ok { old_name := i.old_category_name, new_name := new_name,
                  colors := colors,
                  column := max 1 (min i.max_columns column_value) }

/-!
Groundwork lemmas about the string primitives.
-/

lemma head?_dropWhile_not (p : Char → Bool) :
    ∀ (l : List Char) (c : Char), (l.dropWhile p).head? = some c → p c = false := by
  intro l
  induction l with
  | nil => intro c h; simp [List.dropWhile] at h
  | cons a rest ih =>
    intro c h
    by_cases hp : p a
    · rw [List.dropWhile_cons_of_pos hp] at h
      exact ih c h
    · rw [List.dropWhile_cons_of_neg hp] at h
      simp only [List.head?_cons, Option.some.injEq] at h
      subst h
      exact Bool.not_eq_true _ ▸ eq_false_of_ne_true hp

lemma dropWhile_eq_self_of_head (p : Char → Bool) (l : List Char)
    (h : ∀ c, l.head? = some c → p c = false) : l.dropWhile p = l := by
  cases l with
  | nil => rfl
  | cons a rest => exact List.dropWhile_cons_of_neg (by simp [h a rfl])

lemma pyStripL_head (l : List Char) (c : Char) (h : (pyStripL l).head? = some c) :
    isPySpace c = false := by
  unfold pyStripL at h
  have hsplit := List.takeWhile_append_dropWhile (p := isPySpace) (l := (l.dropWhile isPySpace).reverse)
  have hmem : ((l.dropWhile isPySpace).reverse.dropWhile isPySpace).reverse.head? = some c := h
  have hpre : (l.dropWhile isPySpace) =
      ((l.dropWhile isPySpace).reverse.dropWhile isPySpace).reverse ++
        ((l.dropWhile isPySpace).reverse.takeWhile isPySpace).reverse := by
    conv_lhs => rw [← List.reverse_reverse (l.dropWhile isPySpace), ← hsplit]
    rw [List.reverse_append]
  have : (l.dropWhile isPySpace).head? = some c := by
    rw [hpre, List.head?_append, hmem]
    rfl
  exact head?_dropWhile_not isPySpace l c this

lemma pyStripL_getLast (l : List Char) (c : Char) (h : (pyStripL l).getLast? = some c) :
    isPySpace c = false := by
  unfold pyStripL at h
  rw [List.getLast?_reverse] at h
  exact head?_dropWhile_not isPySpace (l.dropWhile isPySpace).reverse c h

lemma pyStripL_eq_self (l : List Char)
    (h1 : ∀ c, l.head? = some c → isPySpace c = false)
    (h2 : ∀ c, l.getLast? = some c → isPySpace c = false) : pyStripL l = l := by
  unfold pyStripL
  rw [dropWhile_eq_self_of_head isPySpace l h1]
  rw [dropWhile_eq_self_of_head isPySpace l.reverse (fun c hc => h2 c (by rwa [List.head?_reverse] at hc))]
  exact List.reverse_reverse l

lemma char_ofNat_toNat_add32 :
    ∀ n, n < 91 → 65 ≤ n → (Char.ofNat (n + 32)).toNat = n + 32 := by decide

lemma lowerChar_not_upper (c : Char) :
    ¬(65 ≤ (lowerChar c).toNat ∧ (lowerChar c).toNat ≤ 90) := by
  unfold lowerChar
  split
  · next h =>
    rw [char_ofNat_toNat_add32 c.toNat (by omega) h.1]
    omega
  · next h => exact h

lemma lowerChar_idem (c : Char) : lowerChar (lowerChar c) = lowerChar c := by
  conv_lhs => rw [lowerChar]
  rw [if_neg (lowerChar_not_upper c)]

lemma lowerChar_toNat_ge (c : Char) (h : 65 ≤ c.toNat ∧ c.toNat ≤ 90) :
    97 ≤ (lowerChar c).toNat := by
  unfold lowerChar
  rw [if_pos h, char_ofNat_toNat_add32 c.toNat (by omega) h.1]
  omega

lemma isPySpace_false_of_toNat (c : Char) (h32 : ¬ c.toNat = 32)
    (hr : ¬(9 ≤ c.toNat ∧ c.toNat ≤ 13)) : isPySpace c = false := by
  unfold isPySpace
  simp only [Bool.or_eq_false_iff, decide_eq_false_iff_not]
  refine ⟨⟨⟨⟨⟨?_, ?_⟩, ?_⟩, ?_⟩, ?_⟩, ?_⟩ <;> intro hc <;> rw [hc] at h32 hr <;>
    revert h32 hr <;> decide

lemma isPySpace_of_ge (c : Char) (h : 97 ≤ c.toNat) : isPySpace c = false :=
  isPySpace_false_of_toNat c (by omega) (by omega)

lemma isPySpace_lowerChar (c : Char) : isPySpace (lowerChar c) = isPySpace c := by
  by_cases h : 65 ≤ c.toNat ∧ c.toNat ≤ 90
  · rw [isPySpace_of_ge _ (lowerChar_toNat_ge c h)]
    rw [isPySpace_false_of_toNat c (by omega) (by omega)]
  · unfold lowerChar
    rw [if_neg h]

lemma pyLowerL_idem (l : List Char) : pyLowerL (pyLowerL l) = pyLowerL l := by
  unfold pyLowerL
  rw [List.map_map]
  exact List.map_congr_left (fun c _ => lowerChar_idem c)

lemma pyLowerL_getLast (l : List Char) (c : Char) (h : (pyLowerL l).getLast? = some c) :
    ∃ c0, l.getLast? = some c0 ∧ c = lowerChar c0 := by
  unfold pyLowerL at h
  rw [List.getLast?_eq_head?_reverse, ← List.map_reverse, List.head?_map] at h
  rw [List.getLast?_eq_head?_reverse]
  cases h0 : l.reverse.head? with
  | none => rw [h0] at h; simp at h
  | some c0 =>
    rw [h0] at h
    exact ⟨c0, rfl, (Option.some.inj h).symm⟩

/-- The `#`-prefixed candidate string the pipeline validates. -/
def hexCandidate (l : List Char) : List Char :=
  if (pyLowerL (pyStripL l)).head? = some '#' then pyLowerL (pyStripL l)
  else '#' :: pyLowerL (pyStripL l)

lemma normalize_hex_data_cases (l : List Char) :
    normalize_hex_data l =
      if l = [] then none
      else if pyLowerL (pyStripL l) = [] then none
      else if (hexCandidate l).length ≠ 7 then none
      else if pyIntHex16Ok ((hexCandidate l).drop 1) then some (hexCandidate l)
      else none := rfl

lemma normalize_hex_data_idem (l r : List Char) (h : normalize_hex_data l = some r) :
    normalize_hex_data r = some r := by
  rw [normalize_hex_data_cases] at h
  by_cases h0 : l = []
  · rw [if_pos h0] at h; simp at h
  rw [if_neg h0] at h
  by_cases h1 : pyLowerL (pyStripL l) = []
  · rw [if_pos h1] at h; simp at h
  rw [if_neg h1] at h
  by_cases h2 : (hexCandidate l).length ≠ 7
  · rw [if_pos h2] at h; simp at h
  rw [if_neg h2] at h
  by_cases h3 : pyIntHex16Ok ((hexCandidate l).drop 1) = true
  · rw [if_pos h3] at h
    have hr : r = hexCandidate l := (Option.some.inj h).symm
    subst hr
    set c0 := pyLowerL (pyStripL l) with hc0
    have hrne : hexCandidate l ≠ [] := by
      intro hemp
      rw [hemp] at h2
      exact h2 (by simp)
    have hhead : (hexCandidate l).head? = some '#' := by
      unfold hexCandidate
      by_cases hh : c0.head? = some '#'
      · rw [← hc0, if_pos hh]; exact hh
      · rw [← hc0, if_neg hh]; rfl
    have hlast0 : ∀ ch, c0.getLast? = some ch → isPySpace ch = false := by
      intro ch hch
      obtain ⟨ch0, hch0, rfl⟩ := pyLowerL_getLast (pyStripL l) ch (hc0 ▸ hch)
      rw [isPySpace_lowerChar]
      exact pyStripL_getLast l ch0 hch0
    have hlast : ∀ ch, (hexCandidate l).getLast? = some ch → isPySpace ch = false := by
      intro ch hch
      unfold hexCandidate at hch
      rw [← hc0] at hch
      by_cases hh : c0.head? = some '#'
      · rw [if_pos hh] at hch
        exact hlast0 ch hch
      · rw [if_neg hh] at hch
        cases hcc : c0 with
        | nil => exact absurd hcc h1
        | cons b bs =>
          rw [hcc, List.getLast?_cons_cons] at hch
          exact hlast0 ch (by rw [hcc]; exact hch)
    have hstrip : pyStripL (hexCandidate l) = hexCandidate l := by
      refine pyStripL_eq_self _ ?_ hlast
      intro ch hch
      rw [hhead] at hch
      rw [← Option.some.inj hch]
      decide
    have hlower : pyLowerL (hexCandidate l) = hexCandidate l := by
      unfold hexCandidate
      rw [← hc0]
      by_cases hh : c0.head? = some '#'
      · rw [if_pos hh, hc0, pyLowerL_idem]
      · rw [if_neg hh]
        show lowerChar '#' :: pyLowerL c0 = '#' :: c0
        rw [hc0, pyLowerL_idem]
        rfl
    have hcand : hexCandidate (hexCandidate l) = hexCandidate l := by
      conv_lhs => rw [hexCandidate]
      rw [hstrip, hlower, if_pos hhead]
    rw [normalize_hex_data_cases, if_neg hrne, hstrip, hlower, if_neg hrne, hcand,
      if_neg h2, if_pos h3]
  · rw [if_neg h3] at h; simp at h

/-- Claim C9: `normalize_hex_color` is idempotent on accepted outputs — any
value it returns, fed back in, is returned unchanged. -/
theorem normalize_hex_idempotent (s v : String) (h : normalize_hex_color s = some v) :
    normalize_hex_color v = some v := by
  unfold normalize_hex_color at h ⊢
  cases hd : normalize_hex_data s.data with
  | none => rw [hd] at h; simp at h
  | some r =>
    rw [hd] at h
    have h' : String.mk r = v := Option.some.inj h
    subst h'
    show (normalize_hex_data r).map String.mk = some (String.mk r)
    rw [normalize_hex_data_idem s.data r hd]
    rfl

lemma action_cursor_down_of_nonempty (s : AppState) (h : s.display_items ≠ []) :
    action_cursor_down s
      = { s with current_index := (s.current_index + 1) % (s.display_items.length : Int) } := by
  unfold action_cursor_down
  rw [if_neg (by rw [List.isEmpty_iff]; exact h)]

lemma cursor_down_iterate (k : Nat) (s : AppState)
    (h0 : 0 ≤ s.current_index) (h1 : s.current_index < (s.display_items.length : Int)) :
    ((action_cursor_down)^[k] s).display_items = s.display_items ∧
    ((action_cursor_down)^[k] s).current_index
      = (s.current_index + (k : Int)) % (s.display_items.length : Int) := by
  induction k with
  | zero =>
    simp only [Function.iterate_zero, id_eq, Nat.cast_zero, add_zero]
    exact ⟨trivial, (Int.emod_eq_of_lt h0 h1).symm⟩
  | succ k ih =>
    have hne : s.display_items ≠ [] := by
      intro hl
      rw [hl] at h1
      simp only [List.length_nil, Nat.cast_zero] at h1
      omega
    have hlen : (0 : Int) < (s.display_items.length : Int) := lt_of_le_of_lt h0 h1
    obtain ⟨ihd, ihi⟩ := ih
    rw [Function.iterate_succ_apply']
    rw [action_cursor_down_of_nonempty _ (by rw [ihd]; exact hne)]
    refine ⟨by rw [ihd], ?_⟩
    show ((action_cursor_down^[k] s).current_index + 1)
        % (((action_cursor_down^[k] s).display_items.length : Nat) : Int) = _
    rw [ihd, ihi, Int.emod_add_emod]
    push_cast
    ring_nf

/-- Claim C8: `action_cursor_down` is a no-op on an empty display list;
on a nonempty one with an in-range cursor it advances the index by one
modulo the list length, and iterating it exactly `length` times returns
the cursor to its starting index. -/
theorem cursor_down_wraparound (s : AppState) :
    (s.display_items = [] → action_cursor_down s = s) ∧
    (0 ≤ s.current_index → s.current_index < (s.display_items.length : Int) →
      (action_cursor_down s).current_index
          = (s.current_index + 1) % (s.display_items.length : Int) ∧
      ((action_cursor_down)^[s.display_items.length] s).current_index = s.current_index) := by
  constructor
  · intro h
    unfold action_cursor_down
    rw [if_pos (by rw [h]; rfl)]
  · intro h0 h1
    have hne : s.display_items ≠ [] := by
      intro hl
      rw [hl] at h1
      simp only [List.length_nil, Nat.cast_zero] at h1
      omega
    constructor
    · rw [action_cursor_down_of_nonempty s hne]
    · rw [(cursor_down_iterate s.display_items.length s h0 h1).2]
      have hrw : s.current_index + (s.display_items.length : Int)
          = s.current_index + (s.display_items.length : Int) * 1 := by ring
      rw [hrw, Int.add_mul_emod_self_left, Int.emod_eq_of_lt h0 h1]

lemma ensure_default : ensure_category_columns 1 defaultTree = (defaultTree, false) := by
  decide

lemma load_epilogue_default (s : AppState) (h1 : s.column_count = 1)
    (h2 : s.menu_data = defaultTree) : load_epilogue s = s := by
  have he : ensure_category_columns s.column_count s.menu_data = (s.menu_data, false) := by
    rw [h1, h2]
    exact ensure_default
  unfold load_epilogue
  rw [he]
  rfl

/-- Claim C2: on missing storage and on corrupt or structurally invalid
storage alike, `load_menu_data` installs the default tree — exactly one
category `System Tools` holding exactly one item labeled `System Monitor`
in column 1 — sets the column count to 1, and immediately persists exactly
that tree. -/
theorem load_falls_back_to_default (s : AppState) (inp : LoadInput)
    (h : inp = LoadInput.missing ∨ inp = LoadInput.corrupt) :
    (load_menu_data inp s).menu_data = defaultTree ∧
    (load_menu_data inp s).column_count = 1 ∧
    (load_menu_data inp s).storage
      = some { categories := defaultTree, title := s.app_title, columns := 1,
               custom_colors := DEFAULT_COLOR_PAIRS } ∧
    defaultTree.map Prod.fst = ["System Tools"] ∧
    defaultTree.map (fun e => e.2.items.map Item.label) = [["System Monitor"]] ∧
    defaultTree.map (fun e => e.2.column) = [(1 : Int)] := by
  rcases h with rfl | rfl
  · have hm : load_menu_data LoadInput.missing s = create_default_menu s := by
      show load_epilogue (create_default_menu s) = create_default_menu s
      exact load_epilogue_default _ rfl rfl
    rw [hm]
    exact ⟨rfl, rfl, rfl, by decide, by decide, by decide⟩
  · exact ⟨rfl, rfl, rfl, by decide, by decide, by decide⟩

lemma addDefaults_decomp (ds : List PaletteEntry) (p : List PaletteEntry)
    (seen : List (String × String)) :
    ∃ ex, addDefaults p seen ds = p ++ ex ∧ ∀ e ∈ ex, e ∈ ds ∧ entryPair e ∉ seen := by
  induction ds generalizing p seen with
  | nil => exact ⟨[], by simp [addDefaults], by simp⟩
  | cons d rest ih =>
    by_cases hb : (d.background = "" || d.text = "") = true
    · obtain ⟨ex, h1, h2⟩ := ih p seen
      refine ⟨ex, ?_, fun e he => ⟨List.mem_cons_of_mem _ (h2 e he).1, (h2 e he).2⟩⟩
      rw [addDefaults, if_pos hb]
      exact h1
    · by_cases hp : entryPair d ∈ seen
      · by_cases h4 : 4 ≤ p.length
        · refine ⟨[], ?_, by simp⟩
          rw [addDefaults, if_neg hb]
          simp only [if_pos hp]
          rw [if_pos h4, List.append_nil]
        · obtain ⟨ex, h1, h2⟩ := ih p seen
          refine ⟨ex, ?_, fun e he => ⟨List.mem_cons_of_mem _ (h2 e he).1, (h2 e he).2⟩⟩
          rw [addDefaults, if_neg hb]
          simp only [if_pos hp]
          rw [if_neg h4]
          exact h1
      · by_cases h4 : 4 ≤ (p ++ [d]).length
        · refine ⟨[d], ?_, ?_⟩
          · rw [addDefaults, if_neg hb]
            simp only [if_neg hp]
            rw [if_pos h4]
          · intro e he
            rw [List.mem_singleton] at he
            subst he
            exact ⟨List.mem_cons_self _ _, hp⟩
        · obtain ⟨ex, h1, h2⟩ := ih (p ++ [d]) (entryPair d :: seen)
          refine ⟨d :: ex, ?_, ?_⟩
          · rw [addDefaults, if_neg hb]
            simp only [if_neg hp]
            rw [if_neg h4, h1, List.append_assoc]
            rfl
          · intro e he
            rcases List.mem_cons.mp he with rfl | he'
            · exact ⟨List.mem_cons_self _ _, hp⟩
            · refine ⟨List.mem_cons_of_mem _ (h2 e he').1, fun hmem => ?_⟩
              exact (h2 e he').2 (List.mem_cons_of_mem _ hmem)

lemma addDefaults_length_le (ds : List PaletteEntry) (p : List PaletteEntry)
    (seen : List (String × String)) :
    (addDefaults p seen ds).length ≤ max 4 (p.length + 1) := by
  induction ds generalizing p seen with
  | nil =>
    simp only [addDefaults]
    omega
  | cons d rest ih =>
    by_cases hb : (d.background = "" || d.text = "") = true
    · rw [addDefaults, if_pos hb]
      exact ih p seen
    · by_cases hp : entryPair d ∈ seen
      · rw [addDefaults, if_neg hb]
        simp only [if_pos hp]
        by_cases h4 : 4 ≤ p.length
        · rw [if_pos h4]; omega
        · rw [if_neg h4]
          have := ih p seen
          omega
      · rw [addDefaults, if_neg hb]
        simp only [if_neg hp]
        by_cases h4 : 4 ≤ (p ++ [d]).length
        · rw [if_pos h4]
          simp only [List.length_append, List.length_singleton]
          omega
        · rw [if_neg h4]
          have := ih (p ++ [d]) (entryPair d :: seen)
          simp only [List.length_append, List.length_singleton] at this h4
          omega

lemma addFillersAux_decomp (n : Nat) (p : List PaletteEntry) :
    ∃ fl, addFillersAux n p = p ++ fl ∧ ∀ e ∈ fl, ∃ k, e = fillerEntry k := by
  induction n generalizing p with
  | zero => exact ⟨[], by simp [addFillersAux], by simp⟩
  | succ n ih =>
    by_cases h : p.length < 4
    · obtain ⟨fl, h1, h2⟩ := ih (p ++ [fillerEntry (p.length + 1)])
      refine ⟨fillerEntry (p.length + 1) :: fl, ?_, ?_⟩
      · rw [addFillersAux, if_pos h, h1, List.append_assoc]
        rfl
      · intro e he
        rcases List.mem_cons.mp he with rfl | he'
        · exact ⟨p.length + 1, rfl⟩
        · exact h2 e he'
    · refine ⟨[], ?_, by simp⟩
      rw [addFillersAux, if_neg h, List.append_nil]

lemma addFillersAux_length_ge (n : Nat) (p : List PaletteEntry) (h : 4 ≤ p.length + n) :
    4 ≤ (addFillersAux n p).length := by
  induction n generalizing p with
  | zero => simpa using h
  | succ n ih =>
    by_cases hl : p.length < 4
    · rw [addFillersAux, if_pos hl]
      refine ih _ ?_
      simp only [List.length_append, List.length_singleton]
      omega
    · rw [addFillersAux, if_neg hl]
      omega

lemma addFillersAux_length_le (n : Nat) (p : List PaletteEntry) :
    (addFillersAux n p).length ≤ max 4 p.length := by
  induction n generalizing p with
  | zero => simp [addFillersAux]
  | succ n ih =>
    by_cases hl : p.length < 4
    · rw [addFillersAux, if_pos hl]
      have := ih (p ++ [fillerEntry (p.length + 1)])
      simp only [List.length_append, List.length_singleton] at this
      omega
    · rw [addFillersAux, if_neg hl]
      omega

/-- Spec-side step of the amended palette claim, written from the claim's
words as a single left fold with an explicit stop flag (deliberately not
the source's break-style loop): once stopped, a default is ignored; a
default missing a color is skipped; otherwise a default whose case-folded
pair is already seen is skipped and a new one is appended with its pair
recorded; after each such default the walk stops as soon as the palette
holds at least four entries (so at most one entry beyond four is ever
appended). -/
def specPaletteStep : List PaletteEntry × List (String × String) × Bool → PaletteEntry →
    List PaletteEntry × List (String × String) × Bool
  | (acc, seen, true), _ => (acc, seen, true)
  | (acc, seen, false), d =>
    if d.background = "" || d.text = "" then (acc, seen, false)
    else
      let pr := entryPair d
      if pr ∈ seen then (acc, seen, decide (4 ≤ acc.length))
      else (acc ++ [d], pr :: seen, decide (4 ≤ (acc ++ [d]).length))

/-- Spec-side filler run of the amended claim: exactly enough numbered
filler entries to pad the palette to four, numbered by their final
positions. -/
def specPaletteFillers (p : List PaletteEntry) : List PaletteEntry :=
  (List.range (4 - p.length)).map (fun i => fillerEntry (p.length + i + 1))

/-- Spec-side reference palette of the amended claim, written from its
words: the custom entries first, then the stop-flagged default walk over
`DEFAULT_COLOR_PAIRS` seeded with the custom pairs, then the filler run
(present only when fewer than four entries remain). -/
def buildPaletteSpec (custom : List PaletteEntry) : List PaletteEntry :=
  let withDefaults :=
    (DEFAULT_COLOR_PAIRS.foldl specPaletteStep (custom, seedPairs custom, false)).1
  withDefaults ++ specPaletteFillers withDefaults

example : buildPaletteSpec [] = DEFAULT_COLOR_PAIRS.take 4 := by decide

lemma foldl_specPaletteStep_stopped (ds : List PaletteEntry) (acc : List PaletteEntry)
    (seen : List (String × String)) :
    ds.foldl specPaletteStep (acc, seen, true) = (acc, seen, true) := by
  induction ds with
  | nil => rfl
  | cons d rest ih =>
    rw [List.foldl_cons]
    exact ih

lemma addDefaults_eq_foldl (ds : List PaletteEntry) (p : List PaletteEntry)
    (seen : List (String × String)) :
    addDefaults p seen ds = (ds.foldl specPaletteStep (p, seen, false)).1 := by
  induction ds generalizing p seen with
  | nil => rfl
  | cons d rest ih =>
    rw [List.foldl_cons, specPaletteStep]
    by_cases hb : (d.background = "" || d.text = "") = true
    · rw [if_pos hb, addDefaults, if_pos hb]
      exact ih p seen
    · rw [if_neg hb, addDefaults, if_neg hb]
      by_cases hp : entryPair d ∈ seen
      · simp only [if_pos hp]
        by_cases h4 : 4 ≤ p.length
        · rw [if_pos h4, decide_eq_true h4, foldl_specPaletteStep_stopped]
        · rw [if_neg h4, decide_eq_false h4]
          exact ih p seen
      · simp only [if_neg hp]
        by_cases h4 : 4 ≤ (p ++ [d]).length
        · rw [if_pos h4, decide_eq_true h4, foldl_specPaletteStep_stopped]
        · rw [if_neg h4, decide_eq_false h4]
          exact ih (p ++ [d]) (entryPair d :: seen)

lemma addFillersAux_eq_range (n : Nat) (p : List PaletteEntry) (h : 4 ≤ p.length + n) :
    addFillersAux n p
      = p ++ (List.range (4 - p.length)).map (fun i => fillerEntry (p.length + i + 1)) := by
  induction n generalizing p with
  | zero =>
    have h0 : 4 - p.length = 0 := by omega
    rw [h0]
    simp [addFillersAux]
  | succ n ih =>
    by_cases hl : p.length < 4
    · rw [addFillersAux, if_pos hl]
      rw [ih (p ++ [fillerEntry (p.length + 1)]) (by simp; omega)]
      simp only [List.length_append, List.length_singleton]
      rw [List.append_assoc]
      congr 1
      have h4 : 4 - p.length = (4 - (p.length + 1)) + 1 := by omega
      rw [h4, List.range_succ_eq_map, List.map_cons, List.map_map, List.singleton_append]
      have hmap :
          List.map (fun i => fillerEntry (p.length + 1 + i + 1)) (List.range (4 - (p.length + 1)))
            = List.map ((fun i => fillerEntry (p.length + i + 1)) ∘ Nat.succ)
                (List.range (4 - (p.length + 1))) :=
        List.map_congr_left (fun i _ => by
          show fillerEntry (p.length + 1 + i + 1) = fillerEntry (p.length + (i + 1) + 1)
          congr 1
          omega)
      rw [hmap]
    · rw [addFillersAux, if_neg hl]
      have h0 : 4 - p.length = 0 := by omega
      rw [h0]
      simp

lemma build_palette_eq_spec (custom : List PaletteEntry) :
    build_palette_entries custom = buildPaletteSpec custom := by
  unfold build_palette_entries addFillers
  rw [addDefaults_eq_foldl]
  rw [addFillersAux_eq_range 4 _ (by omega)]
  unfold buildPaletteSpec specPaletteFillers
  rfl

/-- Claim C7 counterexample: with an empty custom-color list, the built-in
default `Slate Shine` has a `(background, text)` pair that does not
already appear, yet `_build_palette_entries` omits it — the defaults loop
breaks as soon as the palette reaches four entries, so not all new
defaults are appended. -/
theorem build_palette_omits_new_default :
    ({ name := "Slate Shine", background := "#2b2d42", text := "#edf2f4" } : PaletteEntry)
        ∈ DEFAULT_COLOR_PAIRS ∧
    entryPair { name := "Slate Shine", background := "#2b2d42", text := "#edf2f4" }
        ∉ seedPairs [] ∧
    ({ name := "Slate Shine", background := "#2b2d42", text := "#edf2f4" } : PaletteEntry)
        ∉ build_palette_entries [] := by decide

/-- Claim C7 (amended): `_build_palette_entries` keeps the custom entries
first and unchanged; any entry after them is either a built-in default
whose case-folded `(background, text)` pair was not seeded by the custom
colors, or a numbered filler entry; the result always has at least four
entries, with at most one entry beyond four; and the whole result equals
the spec-side reference construction `buildPaletteSpec`, which walks the
built-in defaults in order seeded with the custom pairs — skipping a
default missing a color or whose case-folded pair is already seen,
appending each new one, and stopping as soon as the palette holds at
least four entries, the stop check running after each default — and then
pads with numbered filler entries exactly when fewer than four entries
remain. So non-duplicate defaults really are appended, in order, before
any fillers, and fillers appear only when the palette is still short. -/
theorem build_palette_structure (custom : List PaletteEntry) :
    (build_palette_entries custom).take custom.length = custom ∧
    4 ≤ (build_palette_entries custom).length ∧
    (build_palette_entries custom).length ≤ max 4 (custom.length + 1) ∧
    (∀ e ∈ (build_palette_entries custom).drop custom.length,
      (e ∈ DEFAULT_COLOR_PAIRS ∧ entryPair e ∉ seedPairs custom) ∨ ∃ k, e = fillerEntry k) ∧
    build_palette_entries custom = buildPaletteSpec custom := by
  obtain ⟨ex, hex, hexmem⟩ :=
    addDefaults_decomp DEFAULT_COLOR_PAIRS custom (seedPairs custom)
  obtain ⟨fl, hfl, hflmem⟩ := addFillersAux_decomp 4 (addDefaults custom (seedPairs custom) DEFAULT_COLOR_PAIRS)
  have hbuild : build_palette_entries custom = custom ++ (ex ++ fl) := by
    unfold build_palette_entries addFillers
    rw [hfl, hex, List.append_assoc]
  refine ⟨?_, ?_, ?_, ?_, build_palette_eq_spec custom⟩
  · rw [hbuild]
    exact List.take_left custom (ex ++ fl)
  · unfold build_palette_entries addFillers
    exact addFillersAux_length_ge 4 _ (by omega)
  · unfold build_palette_entries addFillers
    have h1 := addFillersAux_length_le 4 (addDefaults custom (seedPairs custom) DEFAULT_COLOR_PAIRS)
    have h2 := addDefaults_length_le DEFAULT_COLOR_PAIRS custom (seedPairs custom)
    omega
  · intro e he
    rw [hbuild, List.drop_left] at he
    rcases List.mem_append.mp he with he' | he'
    · exact Or.inl (hexmem e he')
    · exact Or.inr (hflmem e he')

lemma normalize_column_idem (count v : Int) :
    normalize_column_value count (normalize_column_value count v)
      = normalize_column_value count v := by
  unfold normalize_column_value
  omega

lemma normalize_column_bounds (count v : Int) (h : 1 ≤ count) :
    1 ≤ normalize_column_value count v ∧ normalize_column_value count v ≤ count := by
  unfold normalize_column_value
  omega

lemma clamp_column_count_bounds (n : Int) :
    1 ≤ clamp_column_count n ∧ clamp_column_count n ≤ MAX_COLUMNS := by
  unfold clamp_column_count MAX_COLUMNS
  omega

lemma ensure_eq_map_any (count : Int) (tree : List (String × Category)) :
    ensure_category_columns count tree =
      (tree.map (fun e => (e.1, { e.2 with column := normalize_column_value count e.2.column })),
       tree.any (fun e => e.2.column ≠ normalize_column_value count e.2.column)) := by
  induction tree with
  | nil => rfl
  | cons e rest ih =>
    obtain ⟨n, c⟩ := e
    rw [ensure_category_columns, ih]
    rfl

lemma ensure_of_normalized (count : Int) (tree : List (String × Category))
    (h : ∀ e ∈ tree, normalize_column_value count e.2.column = e.2.column) :
    ensure_category_columns count tree = (tree, false) := by
  induction tree with
  | nil => rfl
  | cons e rest ih =>
    obtain ⟨n, c⟩ := e
    have hc := h (n, c) (List.mem_cons_self _ _)
    rw [ensure_category_columns, ih (fun f hf => h f (List.mem_cons_of_mem _ hf))]
    simp only at hc ⊢
    simp [hc]

lemma cleanup_of_nonempty (s : AppState) (hI2 : ∀ e ∈ s.menu_data, e.2.items ≠ []) :
    cleanup_empty_categories s = s := by
  unfold cleanup_empty_categories
  rw [if_pos (List.filter_eq_self.mpr (fun e he => by simp [hI2 e he]))]

lemma update_highlighting_fields (t : AppState) :
    (update_highlighting t).menu_data = t.menu_data ∧
    (update_highlighting t).column_count = t.column_count ∧
    (update_highlighting t).saves = t.saves ∧
    (update_highlighting t).storage = t.storage ∧
    (update_highlighting t).display_items = t.display_items := by
  unfold update_highlighting
  split <;> exact ⟨rfl, rfl, rfl, rfl, rfl⟩

lemma update_menu_display_invariant (s : AppState)
    (hI2 : ∀ e ∈ s.menu_data, e.2.items ≠ [])
    (hI3 : ∀ e ∈ s.menu_data, normalize_column_value s.column_count e.2.column = e.2.column) :
    update_menu_display s =
      update_highlighting { s with display_items := build_display_items s.column_count s.menu_data } := by
  simp only [update_menu_display]
  rw [cleanup_of_nonempty s hI2, ensure_of_normalized s.column_count s.menu_data hI3]
  rfl

/-- Claim C5: `set_column_count` (with the source's default keyword
arguments) clamps the requested count into `[1, MAX_COLUMNS]`,
renormalizes every category column into `[1, newCount]`, and performs
exactly one storage write when the count or any category column actually
changed — and none otherwise.  The hypothesis is invariant I2 (no empty
categories), which the display rebuild would otherwise repair with an
extra write. -/
theorem set_column_count_spec (s : AppState) (n : Int)
    (hI2 : ∀ e ∈ s.menu_data, e.2.items ≠ []) :
    (set_column_count s n true false true).column_count = clamp_column_count n ∧
    (1 ≤ (set_column_count s n true false true).column_count ∧
      (set_column_count s n true false true).column_count ≤ MAX_COLUMNS) ∧
    (∀ e ∈ (set_column_count s n true false true).menu_data,
      1 ≤ e.2.column ∧ e.2.column ≤ clamp_column_count n) ∧
    (set_column_count s n true false true).saves =
      s.saves +
        (if clamp_column_count n ≠ s.column_count ∨
            ∃ e ∈ s.menu_data,
              e.2.column ≠ normalize_column_value (clamp_column_count n) e.2.column
         then 1 else 0) := by
  set c := clamp_column_count n with hc
  have hens := ensure_eq_map_any c s.menu_data
  set tree1 := s.menu_data.map
    (fun e => (e.1, { e.2 with column := normalize_column_value c e.2.column })) with htree1
  set flag := s.menu_data.any
    (fun e => e.2.column ≠ normalize_column_value c e.2.column) with hflag
  have hstep : set_column_count s n true false true =
      update_menu_display (if (decide (c ≠ s.column_count) || flag) = true
        then save_menu_data { s with column_count := c, menu_data := tree1 }
        else { s with column_count := c, menu_data := tree1 }) := by
    simp only [set_column_count]
    rw [hens]
    rfl
  rw [hstep]
  set t := (if (decide (c ≠ s.column_count) || flag) = true
        then save_menu_data { s with column_count := c, menu_data := tree1 }
        else { s with column_count := c, menu_data := tree1 }) with ht
  have htmenu : t.menu_data = tree1 := by rw [ht]; split <;> rfl
  have htcc : t.column_count = c := by rw [ht]; split <;> rfl
  have htsaves : t.saves =
      s.saves + (if (decide (c ≠ s.column_count) || flag) = true then 1 else 0) := by
    rw [ht]
    split
    · rfl
    · exact (Nat.add_zero s.saves).symm
  have hI2t : ∀ e ∈ t.menu_data, e.2.items ≠ [] := by
    rw [htmenu, htree1]
    intro e he
    obtain ⟨f, hf, rfl⟩ := List.mem_map.mp he
    exact hI2 f hf
  have hI3t : ∀ e ∈ t.menu_data, normalize_column_value t.column_count e.2.column = e.2.column := by
    rw [htmenu, htcc, htree1]
    intro e he
    obtain ⟨f, hf, rfl⟩ := List.mem_map.mp he
    exact normalize_column_idem c f.2.column
  rw [update_menu_display_invariant t hI2t hI3t]
  obtain ⟨hm, hcc2, hsv, _, _⟩ :=
    update_highlighting_fields { t with display_items := build_display_items t.column_count t.menu_data }
  have hc1 : 1 ≤ c := (clamp_column_count_bounds n).1
  refine ⟨?_, ?_, ?_, ?_⟩
  · rw [hcc2]
    exact htcc
  · rw [hcc2]
    show 1 ≤ t.column_count ∧ t.column_count ≤ MAX_COLUMNS
    rw [htcc]
    exact clamp_column_count_bounds n
  · rw [hm]
    show ∀ e ∈ t.menu_data, 1 ≤ e.2.column ∧ e.2.column ≤ c
    rw [htmenu, htree1]
    intro e he
    obtain ⟨f, hf, rfl⟩ := List.mem_map.mp he
    exact normalize_column_bounds c f.2.column hc1
  · rw [hsv]
    show t.saves = _
    rw [htsaves]
    have hiff : ((decide (c ≠ s.column_count) || flag) = true) ↔
        (c ≠ s.column_count ∨
          ∃ e ∈ s.menu_data, e.2.column ≠ normalize_column_value c e.2.column) := by
      rw [hflag]
      simp [List.any_eq_true]
    rw [if_congr hiff rfl rfl]

lemma remove_item_once_none (label cmd : String) (items : List Item)
    (h : ∀ it ∈ items, ¬(it.label = label ∧ it.cmd = cmd)) :
    remove_item_once label cmd items = none := by
  induction items with
  | nil => rfl
  | cons it rest ih =>
    rw [remove_item_once, if_neg (h it (List.mem_cons_self _ _)),
      ih (fun x hx => h x (List.mem_cons_of_mem _ hx))]
    rfl

lemma remove_item_once_decomp (label cmd : String) (us : List Item) (it : Item) (vs : List Item)
    (hus : ∀ u ∈ us, ¬(u.label = label ∧ u.cmd = cmd))
    (hit : it.label = label ∧ it.cmd = cmd) :
    remove_item_once label cmd (us ++ it :: vs) = some (us ++ vs) := by
  induction us with
  | nil =>
    rw [List.nil_append, remove_item_once, if_pos hit, List.nil_append]
  | cons u us' ih =>
    rw [List.cons_append, remove_item_once, if_neg (hus u (List.mem_cons_self _ _)),
      ih (fun x hx => hus x (List.mem_cons_of_mem _ hx))]
    rfl

lemma exists_first_match (label cmd : String) (items : List Item)
    (h : ∃ it ∈ items, it.label = label ∧ it.cmd = cmd) :
    ∃ us it vs, items = us ++ it :: vs ∧
      (∀ u ∈ us, ¬(u.label = label ∧ u.cmd = cmd)) ∧
      it.label = label ∧ it.cmd = cmd := by
  induction items with
  | nil => simp at h
  | cons a rest ih =>
    by_cases ha : a.label = label ∧ a.cmd = cmd
    · exact ⟨[], a, rest, rfl, by simp, ha⟩
    · have h' : ∃ it ∈ rest, it.label = label ∧ it.cmd = cmd := by
        rcases h with ⟨it, hmem, hit⟩
        rcases List.mem_cons.mp hmem with rfl | hm
        · exact absurd hit ha
        · exact ⟨it, hm, hit⟩
      obtain ⟨us, it, vs, heq, hus, hit1, hit2⟩ := ih h'
      refine ⟨a :: us, it, vs, by rw [heq, List.cons_append], ?_, hit1, hit2⟩
      intro u hu
      rcases List.mem_cons.mp hu with rfl | hm
      · exact ha
      · exact hus u hm

lemma remove_first_match_none (label cmd : String) (tree : List (String × Category))
    (h : ∀ e ∈ tree, ∀ it ∈ e.2.items, ¬(it.label = label ∧ it.cmd = cmd)) :
    remove_first_match label cmd tree = none := by
  induction tree with
  | nil => rfl
  | cons e rest ih =>
    obtain ⟨n, c⟩ := e
    rw [remove_first_match,
      remove_item_once_none label cmd c.items (h (n, c) (List.mem_cons_self _ _)),
      ih (fun f hf => h f (List.mem_cons_of_mem _ hf))]
    rfl

lemma remove_first_match_found (label cmd : String) (pre : List (String × Category))
    (n : String) (c : Category) (post : List (String × Category))
    (hpre : ∀ e ∈ pre, ∀ it ∈ e.2.items, ¬(it.label = label ∧ it.cmd = cmd))
    (hc : ∃ it ∈ c.items, it.label = label ∧ it.cmd = cmd) :
    ∃ us it vs, c.items = us ++ it :: vs ∧
      (∀ u ∈ us, ¬(u.label = label ∧ u.cmd = cmd)) ∧
      (it.label = label ∧ it.cmd = cmd) ∧
      remove_first_match label cmd (pre ++ (n, c) :: post)
        = some (pre ++ (n, { c with items := us ++ vs }) :: post) := by
  induction pre with
  | nil =>
    obtain ⟨us, it, vs, heq, hus, hit1, hit2⟩ := exists_first_match label cmd c.items hc
    refine ⟨us, it, vs, heq, hus, ⟨hit1, hit2⟩, ?_⟩
    rw [List.nil_append, remove_first_match, heq,
      remove_item_once_decomp label cmd us it vs hus ⟨hit1, hit2⟩]
    rfl
  | cons e pre' ih =>
    obtain ⟨m, d⟩ := e
    obtain ⟨us, it, vs, heq, hus, hit, hrec⟩ :=
      ih (fun f hf => hpre f (List.mem_cons_of_mem _ hf))
    refine ⟨us, it, vs, heq, hus, hit, ?_⟩
    rw [List.cons_append, remove_first_match,
      remove_item_once_none label cmd d.items (hpre (m, d) (List.mem_cons_self _ _)), hrec]
    rfl

/-- Claim C1 (amended): `update_item` locates `old_item` by `(label, cmd)`
match scanning every category in tree order — not restricted to the
recorded old category — and removes the first match found anywhere; when
no category holds a match the operation is a silent no-op that leaves the
state unchanged. -/
theorem update_item_search (s : AppState) (old_item new_item : Item) :
    ((∀ e ∈ s.menu_data, ∀ it ∈ e.2.items,
        ¬(it.label = old_item.label ∧ it.cmd = old_item.cmd)) →
      update_item s old_item new_item = s) ∧
    (∀ pre n c post, s.menu_data = pre ++ (n, c) :: post →
      (∀ e ∈ pre, ∀ it ∈ e.2.items,
        ¬(it.label = old_item.label ∧ it.cmd = old_item.cmd)) →
      (∃ it ∈ c.items, it.label = old_item.label ∧ it.cmd = old_item.cmd) →
      ∃ us it vs, c.items = us ++ it :: vs ∧
        (∀ u ∈ us, ¬(u.label = old_item.label ∧ u.cmd = old_item.cmd)) ∧
        (it.label = old_item.label ∧ it.cmd = old_item.cmd) ∧
        remove_first_match old_item.label old_item.cmd s.menu_data
          = some (pre ++ (n, { c with items := us ++ vs }) :: post)) := by
  constructor
  · intro h
    simp only [update_item]
    rw [remove_first_match_none old_item.label old_item.cmd s.menu_data h]
  · intro pre n c post heq hpre hc
    rw [heq]
    exact remove_first_match_found old_item.label old_item.cmd pre n c post hpre hc

/-- A two-category tree in which the `(label, cmd)` pair recorded by the
edited item exists only in category `"B"`, while the item's recorded
`category` field says `"A"`. -/
def crossTree : List (String × Category) :=
  [("A", { expanded := true, column := 1, colors := none,
           items := [{ label := "x", cmd := "x", info := "", category := "A",
                       pause := false }] }),
   ("B", { expanded := true, column := 1, colors := none,
           items := [{ label := "l", cmd := "c", info := "", category := "B",
                       pause := false }] })]

/-- App state holding `crossTree`. -/
def crossState : AppState :=
  { menu_data := crossTree, column_count := 1, custom_colors := [],
    app_title := "t", display_items := [], current_index := 0,
    storage := none, saves := 0 }

/-- The stale edit target: `(label, cmd)` = `("l", "c")`, recorded
category `"A"`. -/
def staleOld : Item :=
  { label := "l", cmd := "c", info := "", category := "A", pause := false }

/-- The replacement item produced by the edit dialog. -/
def staleNew : Item :=
  { label := "l2", cmd := "c2", info := "", category := "A", pause := false }

/-- Claim C1 counterexample: the recorded old category `"A"` contains no
`(label, cmd)` match for the target, so by the claim `update_item` must
leave the tree completely unchanged — yet the code finds the match in
category `"B"`, removes it there, and mutates the tree. -/
theorem update_item_counterexample :
    staleOld.category = "A" ∧
    (∀ e ∈ crossState.menu_data, e.1 = "A" →
      ∀ it ∈ e.2.items, ¬(it.label = staleOld.label ∧ it.cmd = staleOld.cmd)) ∧
    (update_item crossState staleOld staleNew).menu_data ≠ crossState.menu_data := by
  decide

lemma lookupCat_of_not_contains (tree : List (String × Category)) (name : String)
    (h : containsKey tree name = false) : lookupCat tree name = none := by
  unfold lookupCat
  rw [List.find?_eq_none.mpr]
  · rfl
  · intro e he hp
    unfold containsKey at h
    rw [List.any_eq_false] at h
    exact h e he hp

lemma lookupCat_mem (tree : List (String × Category)) (name : String) (cat : Category)
    (h : lookupCat tree name = some cat) : (name, cat) ∈ tree := by
  unfold lookupCat at h
  cases hf : tree.find? (fun e => e.1 = name) with
  | none => rw [hf] at h; simp at h
  | some e =>
    rw [hf] at h
    have hm := List.mem_of_find?_eq_some hf
    have hp : (e.1 = name) := by
      have := List.find?_some hf
      exact of_decide_eq_true this
    have he2 : e.2 = cat := Option.some.inj h
    have : e = (name, cat) := by
      obtain ⟨a, b⟩ := e
      simp only at hp he2
      rw [hp, he2]
    rwa [this] at hm

lemma lookupCat_append_left_none (t1 t2 : List (String × Category)) (name : String)
    (h : t1.find? (fun e => e.1 = name) = none) :
    lookupCat (t1 ++ t2) name = lookupCat t2 name := by
  unfold lookupCat
  rw [List.find?_append, h]
  rfl

lemma rename_tree_lookup_new (tree : List (String × Category)) (old new : String)
    (c : Category) (hnc : containsKey tree new = false) :
    lookupCat ((tree.filter (fun e => e.1 ≠ old)) ++ [(new, c)]) new = some c := by
  rw [lookupCat_append_left_none]
  · unfold lookupCat
    rw [List.find?_cons_of_pos _ (by simp)]
    rfl
  · rw [List.find?_eq_none]
    intro e he hp
    unfold containsKey at hnc
    rw [List.any_eq_false] at hnc
    exact hnc e (List.mem_of_mem_filter he) hp

lemma rename_tree_lookup_old (tree : List (String × Category)) (old new : String)
    (c : Category) (hno : new ≠ old) :
    lookupCat ((tree.filter (fun e => e.1 ≠ old)) ++ [(new, c)]) old = none := by
  unfold lookupCat
  rw [List.find?_eq_none.mpr]
  · rfl
  · intro e he hp
    rcases List.mem_append.mp he with he' | he'
    · have := List.of_mem_filter he'
      exact absurd (of_decide_eq_true hp) (of_decide_eq_true this)
    · rw [List.mem_singleton] at he'
      subst he'
      exact hno (of_decide_eq_true hp)

lemma restore_position_fields (s : AppState) (name : String) :
    (restore_position_to_category s name).menu_data = s.menu_data ∧
    (restore_position_to_category s name).display_items = s.display_items ∧
    (restore_position_to_category s name).saves = s.saves ∧
    (restore_position_to_category s name).storage = s.storage := by
  unfold restore_position_to_category
  cases s.display_items.findIdx? (fun fe => fe = FlatEntry.header name) <;>
    exact ⟨rfl, rfl, rfl, rfl⟩

/-- Claim C4: renaming category `old_name` to a fresh non-blank
`new_name` re-keys the category under `new_name`, removes the old key,
and rewrites the `category` field of every one of its items to
`new_name` (invariant I4); and in the edit dialog, an attempted rename to
a name used by a different existing category is rejected with a
validation error instead of being applied silently. -/
theorem rename_category_spec (s : AppState) (old_name new_name : String)
    (colors : Option RawColorPair) (column : Option Int) (cat : Category)
    (hI2 : ∀ e ∈ s.menu_data, e.2.items ≠ [])
    (hI3 : ∀ e ∈ s.menu_data, normalize_column_value s.column_count e.2.column = e.2.column)
    (hlk : lookupCat s.menu_data old_name = some cat)
    (hnb : new_name ≠ "") (hneq : new_name ≠ old_name)
    (hnc : containsKey s.menu_data new_name = false) :
    ((∃ cat',
        lookupCat (update_category_details s old_name new_name colors column).menu_data
            new_name = some cat' ∧
        cat'.items = cat.items.map (fun it => { it with category := new_name })) ∧
      lookupCat (update_category_details s old_name new_name colors column).menu_data
          old_name = none) ∧
    (∀ i : CategorySaveInput,
      pyStripS i.category_input ≠ "" →
      (normalize_hex_color i.background_input).isSome
          = (normalize_hex_color i.text_input).isSome →
      pyStripS i.category_input ≠ i.old_category_name →
      pyStripS i.category_input ∈ i.existing_categories →
      edit_category_action_save i
        = Except.error "Another category already uses that name.") := by
  constructor
  · -- state half: compute the rename
    have htarget0 : (if new_name = "" then old_name else new_name) = new_name :=
      if_neg hnb
    -- unfold the operation
    have hstep :
        (update_category_details s old_name new_name colors column).menu_data
          = (s.menu_data.filter (fun e => e.1 ≠ old_name)) ++
              [(new_name,
                { cat with
                  column := normalize_column_value s.column_count (column.getD cat.column),
                  colors := sanitize_color_pair colors,
                  items := (cat.items.map (fun it => { it with category := new_name })) })] := by
      have htarget : (if new_name ≠ old_name ∧ containsKey s.menu_data new_name = true
          then old_name else new_name) = new_name := by
        rw [if_neg (fun hand => by rw [hnc] at hand; exact absurd hand.2 (by decide))]
      simp only [update_category_details]
      rw [hlk]
      dsimp only
      rw [htarget0, htarget]
      rw [if_pos hneq]
      -- now the state pipeline: save, display rebuild, cursor restore
      set tree' := (s.menu_data.filter (fun e => e.1 ≠ old_name)) ++
              [(new_name,
                { cat with
                  column := normalize_column_value s.column_count (column.getD cat.column),
                  colors := sanitize_color_pair colors,
                  items := (cat.items.map (fun it => { it with category := new_name })) })] with htree
      have hI2t : ∀ e ∈ (save_menu_data { s with menu_data := tree' }).menu_data,
          e.2.items ≠ [] := by
        intro e he
        rcases List.mem_append.mp he with he' | he'
        · exact hI2 e (List.mem_of_mem_filter he')
        · rw [List.mem_singleton] at he'
          subst he'
          simp only [ne_eq, List.map_eq_nil_iff]
          exact hI2 (old_name, cat) (lookupCat_mem s.menu_data old_name cat hlk)
      have hI3t : ∀ e ∈ (save_menu_data { s with menu_data := tree' }).menu_data,
          normalize_column_value
            (save_menu_data { s with menu_data := tree' }).column_count e.2.column
            = e.2.column := by
        intro e he
        rcases List.mem_append.mp he with he' | he'
        · exact hI3 e (List.mem_of_mem_filter he')
        · rw [List.mem_singleton] at he'
          subst he'
          exact normalize_column_idem s.column_count (column.getD cat.column)
      rw [update_menu_display_invariant _ hI2t hI3t]
      obtain ⟨hm1, _, _, _, _⟩ := update_highlighting_fields
        { save_menu_data { s with menu_data := tree' } with
          display_items := build_display_items
            (save_menu_data { s with menu_data := tree' }).column_count
            (save_menu_data { s with menu_data := tree' }).menu_data }
      obtain ⟨hm2, _, _, _⟩ := restore_position_fields _ new_name
      obtain ⟨hm3, _, _, _, _⟩ := update_highlighting_fields _
      rw [hm3, hm2, hm1]
      rfl
    rw [hstep]
    refine ⟨⟨_, rename_tree_lookup_new s.menu_data old_name new_name _ hnc, rfl⟩, ?_⟩
    exact rename_tree_lookup_old s.menu_data old_name new_name _ hneq
  · -- validation half
    intro i hnb' hcol hne hmem
    simp only [edit_category_action_save]
    rw [if_neg hnb']
    rw [if_neg (by rw [hcol]; cases (normalize_hex_color i.text_input).isSome <;> simp)]
    rw [if_pos ⟨hne, List.mem_filter.mpr ⟨hmem, by simpa using hne⟩⟩]

lemma cleanup_index (s : AppState) :
    (cleanup_empty_categories s).current_index = s.current_index := by
  simp only [cleanup_empty_categories]
  split <;> rfl

lemma update_highlighting_index (t : AppState) :
    (update_highlighting t).display_items = t.display_items ∧
    (update_highlighting t).current_index =
      (if t.display_items.isEmpty then t.current_index
       else clamp_index t.current_index (t.display_items.length : Int)) := by
  unfold update_highlighting
  split
  · next h => exact ⟨rfl, rfl⟩
  · next h => exact ⟨rfl, rfl⟩

lemma update_menu_display_decomp (t : AppState) :
    ∃ u : AppState, update_menu_display t = update_highlighting u ∧
      u.current_index = t.current_index := by
  simp only [update_menu_display]
  cases hens : ensure_category_columns (cleanup_empty_categories t).column_count
      (cleanup_empty_categories t).menu_data with
  | mk tree' ch =>
    cases ch
    · exact ⟨_, rfl, cleanup_index t⟩
    · exact ⟨_, rfl, cleanup_index t⟩

lemma action_delete_item_eq (s : AppState) (e : Item) (cat : Category)
    (h0 : 0 ≤ s.current_index)
    (hget : s.display_items.get? s.current_index.toNat = some (FlatEntry.item e))
    (hlk : lookupCat s.menu_data e.category = some cat)
    (hmem : e ∈ cat.items) :
    action_delete_item s = delete_and_adjust s e cat := by
  have hne : s.display_items ≠ [] := by
    intro hl
    rw [hl] at hget
    simp at hget
  have hlt : ¬ s.display_items.length ≤ s.current_index.toNat := by
    intro hle
    rw [List.get?_eq_none.mpr hle] at hget
    exact absurd hget (by simp)
  have hcond : (s.display_items.isEmpty
      || decide ((s.display_items.length : Int) ≤ s.current_index)) = false := by
    rw [Bool.or_eq_false_iff]
    constructor
    · cases hD : s.display_items.isEmpty
      · rfl
      · exact absurd (List.isEmpty_iff.mp hD) hne
    · rw [decide_eq_false_iff_not]
      omega
  unfold action_delete_item
  rw [if_neg (fun h => by rw [hcond] at h; exact Bool.noConfusion h)]
  rw [hget]
  dsimp only
  rw [hlk]
  dsimp only
  rw [if_pos hmem]

lemma delete_and_adjust_index (s : AppState) (e : Item) (cat : Category)
    (h0 : 0 ≤ s.current_index) :
    ((((delete_and_adjust s e cat).display_items.length : Int) - 1 ≤ s.current_index →
        (delete_and_adjust s e cat).current_index
          = max 0 (((delete_and_adjust s e cat).display_items.length : Int) - 2)) ∧
     (s.current_index < ((delete_and_adjust s e cat).display_items.length : Int) - 1 →
        (delete_and_adjust s e cat).current_index = s.current_index) ∧
     (2 ≤ ((delete_and_adjust s e cat).display_items.length : Int) →
      ((delete_and_adjust s e cat).display_items.length : Int) - 1 ≤ s.current_index →
        (delete_and_adjust s e cat).current_index
          ≠ clamp_index s.current_index
              ((delete_and_adjust s e cat).display_items.length : Int))) := by
  simp only [delete_and_adjust]
  obtain ⟨u, hu, hui⟩ := update_menu_display_decomp
    (save_menu_data { s with menu_data :=
      (if (cat.items.erase e).isEmpty then s.menu_data.filter (fun f => f.1 ≠ e.category)
       else replaceCat s.menu_data e.category { cat with items := cat.items.erase e }) })
  obtain ⟨hud, huc⟩ := update_highlighting_index u
  have hui' : u.current_index = s.current_index := hui
  rw [hu, hud, huc, hui']
  by_cases hD : u.display_items.isEmpty = true
  · have hL : u.display_items.length = 0 := by
      rw [List.isEmpty_iff.mp hD]
      rfl
    rw [if_pos hD]
    rw [if_pos (show (u.display_items.length : Int) - 1 ≤ s.current_index by
      rw [hL]; push_cast; omega)]
    dsimp only
    refine ⟨fun _ => rfl, fun hlt => ?_, fun h2 _ => ?_⟩
    · rw [hL] at hlt
      omega
    · rw [hL] at h2
      omega
  · have hLpos : 0 < u.display_items.length := by
      cases hl : u.display_items with
      | nil => rw [hl] at hD; exact absurd rfl hD
      | cons a l => simp
    rw [if_neg hD]
    by_cases hge : (u.display_items.length : Int) - 1 ≤ s.current_index
    · have hclamp : clamp_index s.current_index (u.display_items.length : Int)
          = (u.display_items.length : Int) - 1 := by
        unfold clamp_index
        omega
      rw [hclamp]
      rw [if_pos (le_refl _)]
      dsimp only
      refine ⟨fun _ => rfl, fun hlt => by omega, fun h2 _ => ?_⟩
      rw [hclamp]
      omega
    · have hclamp : clamp_index s.current_index (u.display_items.length : Int)
          = s.current_index := by
        unfold clamp_index
        omega
      rw [hclamp]
      rw [if_neg hge]
      rw [hud, huc, if_neg hD, hui', hclamp]
      exact ⟨fun hge' => absurd hge' hge, fun _ => rfl, fun _ hge' => absurd hge' hge⟩

/-- Claim C10: after a successful `action_delete_item`, when the cursor
index is at least (new flat-sequence length - 1) the cursor is set to
`max 0 (length - 2)` — one position before the last entry — differing
from the `max 0 (length - 1)` the general `clamp_index` rule of
`update_highlighting` would give; an in-range cursor is left where it
was. -/
theorem delete_cursor_adjust (s : AppState) (e : Item) (cat : Category)
    (h0 : 0 ≤ s.current_index)
    (hget : s.display_items.get? s.current_index.toNat = some (FlatEntry.item e))
    (hlk : lookupCat s.menu_data e.category = some cat)
    (hmem : e ∈ cat.items) :
    ((((action_delete_item s).display_items.length : Int) - 1 ≤ s.current_index →
        (action_delete_item s).current_index
          = max 0 (((action_delete_item s).display_items.length : Int) - 2)) ∧
     (s.current_index < ((action_delete_item s).display_items.length : Int) - 1 →
        (action_delete_item s).current_index = s.current_index) ∧
     (2 ≤ ((action_delete_item s).display_items.length : Int) →
      ((action_delete_item s).display_items.length : Int) - 1 ≤ s.current_index →
        (action_delete_item s).current_index
          ≠ clamp_index s.current_index ((action_delete_item s).display_items.length : Int))) := by
  rw [action_delete_item_eq s e cat h0 hget hlk hmem]
  exact delete_and_adjust_index s e cat h0

lemma lookupCat_filter_key (tree : List (String × Category)) (name : String) :
    lookupCat (tree.filter (fun f => f.1 ≠ name)) name = none := by
  unfold lookupCat
  rw [List.find?_eq_none.mpr]
  · rfl
  · intro e he hp
    have h1 := List.of_mem_filter he
    exact absurd (of_decide_eq_true hp) (of_decide_eq_true h1)

lemma lookupCat_filter_ne (tree : List (String × Category)) (name k : String) (h : k ≠ name) :
    lookupCat (tree.filter (fun f => f.1 ≠ name)) k = lookupCat tree k := by
  induction tree with
  | nil => rfl
  | cons e rest ih =>
    obtain ⟨m, c⟩ := e
    by_cases hm : m = name
    · rw [List.filter_cons_of_neg (by simpa using hm)]
      rw [ih]
      unfold lookupCat
      rw [List.find?_cons_of_neg _ (by simp; intro hc; exact h (hc ▸ hm))]
    · rw [List.filter_cons_of_pos (by simpa using hm)]
      unfold lookupCat
      by_cases hk : m = k
      · rw [List.find?_cons_of_pos _ (by simpa using hk),
          List.find?_cons_of_pos _ (by simpa using hk)]
      · rw [List.find?_cons_of_neg _ (by simpa using hk),
          List.find?_cons_of_neg _ (by simpa using hk)]
        exact ih

lemma lookupCat_replaceCat_self (tree : List (String × Category)) (name : String)
    (cat' c : Category) (h : lookupCat tree name = some c) :
    lookupCat (replaceCat tree name cat') name = some cat' := by
  induction tree with
  | nil => simp [lookupCat] at h
  | cons e rest ih =>
    obtain ⟨m, d⟩ := e
    by_cases hm : m = name
    · subst hm
      unfold replaceCat lookupCat
      rw [List.map_cons, if_pos rfl]
      rw [List.find?_cons_of_pos _ (by simp)]
      rfl
    · unfold replaceCat lookupCat
      rw [List.map_cons, if_neg (by simpa using hm)]
      rw [List.find?_cons_of_neg _ (by simpa using hm)]
      unfold lookupCat at h
      rw [List.find?_cons_of_neg _ (by simpa using hm)] at h
      exact ih h

lemma lookupCat_replaceCat_ne (tree : List (String × Category)) (name : String)
    (cat' : Category) (k : String) (h : k ≠ name) :
    lookupCat (replaceCat tree name cat') k = lookupCat tree k := by
  induction tree with
  | nil => rfl
  | cons e rest ih =>
    obtain ⟨m, d⟩ := e
    by_cases hm : m = name
    · subst hm
      unfold replaceCat lookupCat
      rw [List.map_cons, if_pos rfl]
      rw [List.find?_cons_of_neg _ (by simp; intro hc; exact h hc.symm),
        List.find?_cons_of_neg _ (by simp; intro hc; exact h hc.symm)]
      exact ih
    · unfold replaceCat lookupCat
      rw [List.map_cons, if_neg (by simpa using hm)]
      by_cases hk : m = k
      · rw [List.find?_cons_of_pos _ (by simpa using hk),
          List.find?_cons_of_pos _ (by simpa using hk)]
      · rw [List.find?_cons_of_neg _ (by simpa using hk),
          List.find?_cons_of_neg _ (by simpa using hk)]
        exact ih

lemma containsKey_eq_false_of_lookup_none (tree : List (String × Category)) (k : String)
    (h : lookupCat tree k = none) : containsKey tree k = false := by
  unfold lookupCat at h
  rw [Option.map_eq_none'] at h
  unfold containsKey
  rw [List.any_eq_false]
  intro e he
  exact List.find?_eq_none.mp h e he

lemma append_item_fresh (tree : List (String × Category)) (name : String) (c : Category)
    (x : Item) (h : containsKey tree name = false) :
    (tree ++ [(name, c)]).map
        (fun f => if f.1 = name then (f.1, { f.2 with items := f.2.items ++ [x] }) else f)
      = tree ++ [(name, { c with items := c.items ++ [x] })] := by
  induction tree with
  | nil => simp
  | cons e rest ih =>
    unfold containsKey at h
    rw [List.any_cons, Bool.or_eq_false_iff] at h
    rw [List.cons_append, List.map_cons, if_neg (by simpa using h.1)]
    rw [List.cons_append]
    rw [ih (by unfold containsKey; exact h.2)]

lemma delete_and_adjust_menu (s : AppState) (e : Item) (cat : Category)
    (tree : List (String × Category))
    (htree : (if (cat.items.erase e).isEmpty
              then s.menu_data.filter (fun f => f.1 ≠ e.category)
              else replaceCat s.menu_data e.category { cat with items := cat.items.erase e })
        = tree)
    (hI2t : ∀ f ∈ tree, f.2.items ≠ [])
    (hI3t : ∀ f ∈ tree, normalize_column_value s.column_count f.2.column = f.2.column) :
    (delete_and_adjust s e cat).menu_data = tree ∧
    (delete_and_adjust s e cat).column_count = s.column_count := by
  simp only [delete_and_adjust]
  rw [htree]
  rw [update_menu_display_invariant (save_menu_data { s with menu_data := tree }) hI2t hI3t]
  obtain ⟨hm, hcc, _, _, _⟩ := update_highlighting_fields
    { save_menu_data { s with menu_data := tree } with
      display_items := build_display_items
        (save_menu_data { s with menu_data := tree }).column_count
        (save_menu_data { s with menu_data := tree }).menu_data }
  constructor
  · split
    · exact hm
    · exact hm
  · split
    · exact hcc
    · exact hcc

lemma filter_key_mem {tree : List (String × Category)} {name : String}
    {f : String × Category} (hf : f ∈ tree.filter (fun g => g.1 ≠ name)) :
    f ∈ tree ∧ f.1 ≠ name := by
  have h1 := List.of_mem_filter hf
  exact ⟨List.mem_of_mem_filter hf, of_decide_eq_true h1⟩

lemma update_menu_display_menu (t : AppState)
    (hI2 : ∀ f ∈ t.menu_data, f.2.items ≠ [])
    (hI3 : ∀ f ∈ t.menu_data, normalize_column_value t.column_count f.2.column = f.2.column) :
    (update_menu_display t).menu_data = t.menu_data := by
  rw [update_menu_display_invariant t hI2 hI3]
  obtain ⟨hm, _, _, _, _⟩ := update_highlighting_fields _
  rw [hm]

lemma append_item_start (tree : List (String × Category)) (name : String) (x : Item)
    (col : Int) (h : containsKey tree name = false) :
    (tree ++ [(name,
        ({ expanded := true, column := col, colors := none, items := [] } : Category))]).map
        (fun f => if f.1 = name then (f.1, { f.2 with items := f.2.items ++ [x] }) else f)
      = tree ++ [(name,
        ({ expanded := true, column := col, colors := none, items := [x] } : Category))] := by
  rw [append_item_fresh tree name _ x h]
  rfl

lemma add_new_item_fresh (s' : AppState) (it : Item)
    (hnc : containsKey s'.menu_data it.category = false)
    (hI2 : ∀ f ∈ s'.menu_data, f.2.items ≠ [])
    (hI3 : ∀ f ∈ s'.menu_data, normalize_column_value s'.column_count f.2.column = f.2.column) :
    lookupCat (add_new_item s' it).menu_data it.category
      = some { expanded := true, column := normalize_column_value s'.column_count 1,
               colors := none, items := [it] } := by
  simp only [add_new_item]
  rw [if_neg (fun h => by rw [hnc] at h; exact Bool.noConfusion h)]
  rw [append_item_start s'.menu_data it.category it (normalize_column_value s'.column_count 1) hnc]
  have hm : (update_menu_display (save_menu_data { s' with menu_data :=
      s'.menu_data ++ [(it.category,
        ({ expanded := true, column := normalize_column_value s'.column_count 1,
           colors := none, items := [it] } : Category))] })).menu_data
      = s'.menu_data ++ [(it.category,
        ({ expanded := true, column := normalize_column_value s'.column_count 1,
           colors := none, items := [it] } : Category))] := by
    refine update_menu_display_menu _ ?_ ?_
    · intro f hf
      rcases List.mem_append.mp hf with hf' | hf'
      · exact hI2 f hf'
      · rw [List.mem_singleton] at hf'
        subst hf'
        simp
    · intro f hf
      rcases List.mem_append.mp hf with hf' | hf'
      · exact hI3 f hf'
      · rw [List.mem_singleton] at hf'
        subst hf'
        exact normalize_column_idem s'.column_count 1
  rw [hm]
  rw [lookupCat_append_left_none _ _ _ (List.find?_eq_none.mpr (fun f hf hp => by
    unfold containsKey at hnc
    rw [List.any_eq_false] at hnc
    exact hnc f hf hp))]
  unfold lookupCat
  rw [List.find?_cons_of_pos _ (by simp)]
  rfl

/-- Claim C3: a successful `action_delete_item` removes the first
structurally-equal item from its recorded category's item sequence; when
that removal empties the category, the category itself is deleted from
the tree (invariant I2); other categories are untouched; and the deleted
category's name can immediately be reused by `add_new_item`, which
recreates it (expanded, column 1) holding exactly the new item. -/
theorem delete_item_spec (s : AppState) (e : Item) (cat : Category) (us vs : List Item)
    (h0 : 0 ≤ s.current_index)
    (hget : s.display_items.get? s.current_index.toNat = some (FlatEntry.item e))
    (hlk : lookupCat s.menu_data e.category = some cat)
    (hitems : cat.items = us ++ e :: vs) (hus : e ∉ us)
    (hI2o : ∀ f ∈ s.menu_data, f.1 ≠ e.category → f.2.items ≠ [])
    (hI3 : ∀ f ∈ s.menu_data, normalize_column_value s.column_count f.2.column = f.2.column)
    (hcc : 1 ≤ s.column_count) :
    (us ++ vs = [] →
      lookupCat (action_delete_item s).menu_data e.category = none) ∧
    (us ++ vs ≠ [] →
      lookupCat (action_delete_item s).menu_data e.category
        = some { cat with items := us ++ vs }) ∧
    (∀ k, k ≠ e.category →
      lookupCat (action_delete_item s).menu_data k = lookupCat s.menu_data k) ∧
    (us ++ vs = [] → ∀ it : Item, it.category = e.category →
      lookupCat (add_new_item (action_delete_item s) it).menu_data e.category
        = some { expanded := true, column := 1, colors := none, items := [it] }) := by
  have herase : cat.items.erase e = us ++ vs := by
    rw [hitems, List.erase_append_right _ hus, List.erase_cons_head]
  have hmem : e ∈ cat.items := by
    rw [hitems]
    exact List.mem_append_right _ (List.mem_cons_self _ _)
  rw [action_delete_item_eq s e cat h0 hget hlk hmem]
  by_cases hemp : us ++ vs = []
  · -- category emptied and removed
    have htree : (if (cat.items.erase e).isEmpty
          then s.menu_data.filter (fun f => f.1 ≠ e.category)
          else replaceCat s.menu_data e.category { cat with items := cat.items.erase e })
        = s.menu_data.filter (fun f => f.1 ≠ e.category) := by
      rw [herase, hemp]
      rfl
    obtain ⟨hmenu, hccp⟩ := delete_and_adjust_menu s e cat _ htree
      (fun f hf => hI2o f (filter_key_mem hf).1 (filter_key_mem hf).2)
      (fun f hf => hI3 f (List.mem_of_mem_filter hf))
    have hlook : lookupCat (delete_and_adjust s e cat).menu_data e.category = none := by
      rw [hmenu]
      exact lookupCat_filter_key s.menu_data e.category
    refine ⟨fun _ => hlook, fun hne => absurd hemp hne, fun k hk => ?_, fun _ it hitcat => ?_⟩
    · rw [hmenu]
      exact lookupCat_filter_ne s.menu_data e.category k hk
    · have hnc : containsKey (delete_and_adjust s e cat).menu_data it.category = false := by
        rw [hitcat]
        exact containsKey_eq_false_of_lookup_none _ _ hlook
      have hI2' : ∀ f ∈ (delete_and_adjust s e cat).menu_data, f.2.items ≠ [] := by
        rw [hmenu]
        exact fun f hf => hI2o f (filter_key_mem hf).1 (filter_key_mem hf).2
      have hI3' : ∀ f ∈ (delete_and_adjust s e cat).menu_data,
          normalize_column_value (delete_and_adjust s e cat).column_count f.2.column
            = f.2.column := by
        rw [hmenu, hccp]
        exact fun f hf => hI3 f (List.mem_of_mem_filter hf)
      have hres := add_new_item_fresh (delete_and_adjust s e cat) it hnc hI2' hI3'
      rw [hitcat] at hres
      rw [hres, hccp]
      have hone : normalize_column_value s.column_count 1 = 1 := by
        unfold normalize_column_value
        omega
      rw [hone]
  · -- category keeps its remaining items
    have htree : (if (cat.items.erase e).isEmpty
          then s.menu_data.filter (fun f => f.1 ≠ e.category)
          else replaceCat s.menu_data e.category { cat with items := cat.items.erase e })
        = replaceCat s.menu_data e.category { cat with items := us ++ vs } := by
      rw [herase]
      rw [if_neg (fun hc => hemp (List.isEmpty_iff.mp hc))]
    have hcatmem : (e.category, cat) ∈ s.menu_data := lookupCat_mem _ _ _ hlk
    have hI2t : ∀ f ∈ replaceCat s.menu_data e.category { cat with items := us ++ vs },
        f.2.items ≠ [] := by
      intro f hf
      obtain ⟨g, hg, rfl⟩ := List.mem_map.mp hf
      by_cases hgk : g.1 = e.category
      · rw [if_pos hgk]
        simpa using hemp
      · rw [if_neg hgk]
        exact hI2o g hg hgk
    have hI3t : ∀ f ∈ replaceCat s.menu_data e.category { cat with items := us ++ vs },
        normalize_column_value s.column_count f.2.column = f.2.column := by
      intro f hf
      obtain ⟨g, hg, rfl⟩ := List.mem_map.mp hf
      by_cases hgk : g.1 = e.category
      · rw [if_pos hgk]
        show normalize_column_value s.column_count cat.column = cat.column
        exact hI3 (e.category, cat) hcatmem
      · rw [if_neg hgk]
        exact hI3 g hg
    obtain ⟨hmenu, _⟩ := delete_and_adjust_menu s e cat _ htree hI2t hI3t
    refine ⟨fun he => absurd he hemp, fun _ => ?_, fun k hk => ?_, fun he => absurd he hemp⟩
    · rw [hmenu]
      exact lookupCat_replaceCat_self s.menu_data e.category _ cat hlk
    · rw [hmenu]
      exact lookupCat_replaceCat_ne s.menu_data e.category _ k hk

/-!
Concrete sample states used by the witness theorems.
-/

/-- An app state with an empty tree. -/
def emptyApp : AppState :=
  { menu_data := [], column_count := 1, custom_colors := [], app_title := "t",
    display_items := [], current_index := 0, storage := none, saves := 0 }

/-- A fresh pre-load app state. -/
def initApp : AppState :=
  { menu_data := [], column_count := 1, custom_colors := [], app_title := "Menu",
    display_items := [], current_index := 0, storage := none, saves := 0 }

/-- A three-header display used by the cursor witness. -/
def navApp : AppState :=
  { menu_data := [], column_count := 1, custom_colors := [], app_title := "t",
    display_items := [FlatEntry.header "A", FlatEntry.header "B", FlatEntry.header "C"],
    current_index := 1, storage := none, saves := 0 }

/-- Sample item in category `A`. -/
def dA : Item := { label := "a", cmd := "ca", info := "", category := "A", pause := false }

/-- Sample item in category `B`. -/
def dB : Item := { label := "b", cmd := "cb", info := "", category := "B", pause := false }

/-- Category `A` holding only `dA`. -/
def delCatA : Category := { expanded := true, column := 1, colors := none, items := [dA] }

/-- Category `B` holding only `dB`. -/
def delCatB : Category := { expanded := true, column := 1, colors := none, items := [dB] }

/-- Two-category state with the cursor on `dA`. -/
def delState : AppState :=
  { menu_data := [("A", delCatA), ("B", delCatB)], column_count := 1,
    custom_colors := [], app_title := "t",
    display_items := [FlatEntry.header "A", FlatEntry.item dA,
                      FlatEntry.header "B", FlatEntry.item dB],
    current_index := 1, storage := none, saves := 0 }

/-- Two-category state with the cursor on the last entry `dB`. -/
def delState2 : AppState :=
  { menu_data := [("A", delCatA), ("B", delCatB)], column_count := 1,
    custom_colors := [], app_title := "t",
    display_items := [FlatEntry.header "A", FlatEntry.item dA,
                      FlatEntry.header "B", FlatEntry.item dB],
    current_index := 3, storage := none, saves := 0 }

/-- Replacement item fed to `add_new_item` in the delete witness. -/
def itNew : Item := { label := "n", cmd := "cn", info := "", category := "A", pause := false }

/-- One-category state whose column count gets shrunk in the C5 witness. -/
def colState : AppState :=
  { menu_data := [("A", { expanded := true, column := 5, colors := none, items := [dA] })],
    column_count := 6, custom_colors := [], app_title := "t",
    display_items := [], current_index := 0, storage := none, saves := 0 }

/-- Category `A` of the rename witness. -/
def rnCatA : Category :=
  { expanded := true, column := 1, colors := none,
    items := [{ label := "ra", cmd := "rc", info := "", category := "A", pause := false }] }

/-- Two-category state for the rename witness. -/
def rnState : AppState :=
  { menu_data := [("A", rnCatA), ("B", delCatB)], column_count := 1,
    custom_colors := [], app_title := "t",
    display_items := [], current_index := 0, storage := none, saves := 0 }

/-- Dialog input attempting to rename `A` to the taken name `B`. -/
def valInput : CategorySaveInput :=
  { category_input := "B", background_input := "", text_input := "", column_input := "1",
    old_category_name := "A", existing_categories := ["A", "B"],
    category_column := 1, max_columns := 6 }

theorem update_item_search_witness :
    update_item emptyApp staleOld staleNew = emptyApp ∧
    (remove_first_match staleOld.label staleOld.cmd crossState.menu_data).isSome = true := by
  constructor
  · exact (update_item_search emptyApp staleOld staleNew).1 (by decide)
  · obtain ⟨us, it, vs, h1, h2, h3, h4⟩ :=
      (update_item_search crossState staleOld staleNew).2
        [("A", { expanded := true, column := 1, colors := none,
                 items := [{ label := "x", cmd := "x", info := "", category := "A",
                             pause := false }] })]
        "B"
        { expanded := true, column := 1, colors := none,
          items := [{ label := "l", cmd := "c", info := "", category := "B",
                      pause := false }] }
        []
        (by decide) (by decide) (by decide)
    rw [h4]
    rfl

theorem load_falls_back_witness :
    (load_menu_data LoadInput.missing initApp).menu_data = defaultTree ∧
    (load_menu_data LoadInput.missing initApp).column_count = 1 := by
  have h := load_falls_back_to_default initApp LoadInput.missing (Or.inl rfl)
  exact ⟨h.1, h.2.1⟩

theorem delete_item_spec_witness :
    lookupCat (action_delete_item delState).menu_data "A" = none ∧
    lookupCat (add_new_item (action_delete_item delState) itNew).menu_data "A"
      = some { expanded := true, column := 1, colors := none, items := [itNew] } := by
  have h := delete_item_spec delState dA delCatA [] [] (by decide) (by decide) (by decide)
    (by decide) (by decide) (by decide) (by decide) (by decide)
  exact ⟨h.1 rfl, h.2.2.2 rfl itNew rfl⟩

theorem rename_category_spec_witness :
    (lookupCat (update_category_details rnState "A" "C" none none).menu_data "C").map
        Category.items
      = some [{ label := "ra", cmd := "rc", info := "", category := "C", pause := false }] ∧
    lookupCat (update_category_details rnState "A" "C" none none).menu_data "A" = none ∧
    edit_category_action_save valInput
      = Except.error "Another category already uses that name." := by
  obtain ⟨⟨⟨cat', hc1, hc2⟩, hold⟩, hval⟩ :=
    rename_category_spec rnState "A" "C" none none rnCatA (by decide) (by decide)
      (by decide) (by decide) (by decide) (by decide)
  refine ⟨?_, hold, hval valInput (by decide) (by decide) (by decide) (by decide)⟩
  rw [hc1]
  show some cat'.items = _
  rw [hc2]
  rfl

theorem set_column_count_spec_witness :
    (set_column_count colState 2 true false true).column_count = clamp_column_count 2 ∧
    (set_column_count colState 2 true false true).saves = colState.saves + 1 := by
  have h := set_column_count_spec colState 2 (by decide)
  refine ⟨h.1, ?_⟩
  rw [h.2.2.2]
  decide

theorem build_palette_structure_witness :
    4 ≤ (build_palette_entries []).length ∧
    (build_palette_entries []).take ([] : List PaletteEntry).length = [] ∧
    build_palette_entries [] = buildPaletteSpec [] := by
  have h := build_palette_structure []
  exact ⟨h.2.1, h.1, h.2.2.2.2⟩

theorem cursor_down_wraparound_witness :
    ((action_cursor_down)^[3] navApp).current_index = 1 ∧
    (action_cursor_down navApp).current_index = 2 := by
  have h := (cursor_down_wraparound navApp).2 (by decide) (by decide)
  constructor
  · exact h.2
  · rw [h.1]
    decide

theorem normalize_hex_idempotent_witness :
    normalize_hex_color "#1a2b3c" = some "#1a2b3c" :=
  normalize_hex_idempotent "1a2B3C" "#1a2b3c" (by decide)

theorem delete_cursor_adjust_witness :
    (((action_delete_item delState2).display_items.length : Int) - 1
        ≤ delState2.current_index) ∧
    (action_delete_item delState2).current_index
      = max 0 (((action_delete_item delState2).display_items.length : Int) - 2) := by
  refine ⟨by decide, ?_⟩
  exact (delete_cursor_adjust delState2 dB delCatB (by decide) (by decide) (by decide)
    (by decide)).1 (by decide)

/-- Claim C6: evaluation of `normalize_hex_color` on the spec's scenario
inputs, and on the input `"+12345"`, which the claim's "exactly 6 hex
digits" rule would reject but the code accepts: the `int(color[1:], 16)`
check also admits a sign character, so the returned value `"#+12345"`
contains `'+'`, which is not a hex digit. -/
theorem normalize_hex_accepts_nonhex_sign :
    normalize_hex_color "1a2B3C" = some "#1a2b3c" ∧
    normalize_hex_color "12345" = none ∧
    normalize_hex_color "#zzzzzz" = none ∧
    normalize_hex_color "+12345" = some "#+12345" ∧
    isHexDig '+' = false := by decide
